import Mathlib

/-!
Shallow embedding of the timetable-generator's optimization engine
(`scheduler_engine.py`, configuration from `Config.py`, entity fields from
`models.py`).  Times of day are represented as minutes since midnight (the
source stores `'HH:MM'` strings and re-parses them; the round trip is the
identity on minutes).  Real-valued scores use `ℚ`.  Randomness
(`random.random`, `random.choice`, `random.randint`, `random.sample`,
`np.argsort` tie order) is supplied by explicit oracle parameters so every
realizable run of the source corresponds to some oracle value.
-/

namespace Timetable

/-- `models.Classroom` (fields the engine reads, plus `capacity`). -/
structure Classroom where
  id : Nat
  capacity : Nat
deriving DecidableEq, Repr, Inhabited

/-- `models.Laboratory` (fields the engine reads, plus `capacity`). -/
structure Laboratory where
  id : Nat
  capacity : Nat
deriving DecidableEq, Repr, Inhabited

/-- `models.Faculty` (fields read by the fitness evaluator). -/
structure Faculty where
  id : Nat
  max_hours_per_day : Nat
  max_hours_per_week : Nat
deriving DecidableEq, Repr, Inhabited

/-- `models.Subject` (the engine only counts subjects and reads `faculty_id`
through `SpecialClass.subject`; that join is inlined into `SpecialClass`). -/
structure Subject where
  id : Nat
  faculty_id : Nat
  theory_hours_per_week : Nat
  lab_hours_per_week : Nat
deriving DecidableEq, Repr, Inhabited

/-- `models.Batch` (fields the engine reads). -/
structure Batch where
  id : Nat
  student_count : Nat
  max_classes_per_day : Nat
deriving DecidableEq, Repr, Inhabited

/-- `models.SpecialClass`.  `faculty_id` carries `special.subject.faculty_id`
(the engine reads it through the `subject` relationship).  `start_time` and
`end_time` are minutes since midnight. -/
structure SpecialClass where
  subject_id : Nat
  batch_id : Nat
  faculty_id : Nat
  day_of_week : Nat
  start_time : Nat
  end_time : Nat
  class_type : String
  priority : Nat
deriving DecidableEq, Repr, Inhabited

/-- One schedule-entry dict as built by `create_comprehensive_schedule`:
keys `subject_id, batch_id, faculty_id, venue_id, venue_type, day,
start_time, end_time, is_fixed, shift, class_type, priority`. -/
structure ScheduleEntry where
  subject_id : Nat
  batch_id : Nat
  faculty_id : Nat
  venue_id : Nat
  venue_type : String
  day : String
  start_time : Nat
  end_time : Nat
  is_fixed : Bool
  shift : String
  class_type : String
  priority : Nat
deriving DecidableEq, Repr, Inhabited

/-- One conflict dict appended to `self.conflicts`.  `Option` fields model
keys that are present only in some conflict variants. -/
structure Conflict where
  ctype : String
  subject_id : Option Nat
  batch_id : Nat
  day : String
  count : Option Nat
  limit : Option Nat
  reason : String
deriving DecidableEq, Repr, Inhabited

/-- The frozen input snapshot plus the GA size parameters the optimizer
reads from `Config` (`GA_POPULATION_SIZE`, `GA_GENERATIONS`; mutation and
crossover rates only feed `random.random()` comparisons, which the oracles
absorb). -/
structure Env where
  classrooms : List Classroom
  laboratories : List Laboratory
  faculty : List Faculty
  subjects : List Subject
  batches : List Batch
  special_classes : List SpecialClass
  population_size : Nat
  generations : Nat
deriving Repr, Inhabited

/-- `Config.WORKING_DAYS`. -/
def WORKING_DAYS : List String :=
  ["Monday", "Tuesday", "Wednesday", "Thursday", "Friday"]

/-- `Config.TIME_SLOTS`, in minutes since midnight. -/
def TIME_SLOTS : List (Nat × Nat) :=
  [(540, 600), (600, 660), (660, 720), (720, 780), (780, 840),
   (840, 900), (900, 960), (960, 1020), (1020, 1080)]

/-- `Config.MAX_CLASSES_PER_DAY` (default 8). -/
def MAX_CLASSES_PER_DAY : Nat := 8

/-- `Config.MIN_CLASSROOM_UTILIZATION` (0.6). -/
def MIN_CLASSROOM_UTILIZATION : ℚ := 3 / 5

/-- `Config.MAX_CLASSROOM_UTILIZATION` (0.85). -/
def MAX_CLASSROOM_UTILIZATION : ℚ := 17 / 20

/-- `Config.OPTIMIZATION_WEIGHTS`, keyed by the same strings. -/
def OPTIMIZATION_WEIGHTS : String → ℚ
  | "room_conflicts" => 200
  | "faculty_conflicts" => 200
  | "batch_conflicts" => 200
  | "lab_conflicts" => 180
  | "capacity_violations" => 160
  | "shift_violations" => 140
  | "max_classes_per_day" => 120
  | "faculty_availability_violations" => 150
  | "special_class_violations" => 300
  | "lab_duration_violations" => 100
  | "lab_equipment_conflicts" => 120
  | "lab_safety_violations" => 140
  | "technician_availability" => 80
  | "classroom_utilization" => 50
  | "lab_utilization" => 60
  | "faculty_load_balance" => 40
  | "elective_sync_violations" => 70
  | "interdisciplinary_bonus" => 30
  | "continuous_slot_bonus" => 20
  | _ => 0

/-- `convert_day_number_to_name`. -/
def convert_day_number_to_name (day_number : Nat) : String :=
  match day_number with
  | 1 => "Monday"
  | 2 => "Tuesday"
  | 3 => "Wednesday"
  | 4 => "Thursday"
  | 5 => "Friday"
  | _ => "Monday"

/-- `get_time_shift`: morning before 14:00, evening after. -/
def get_time_shift (t : Nat) : String :=
  if t / 60 < 14 then "morning" else "evening"

/-- Session duration in hours, as computed by
`(datetime.strptime(end) - datetime.strptime(start)).seconds / 3600`:
a negative difference wraps modulo one day. -/
def durationHours (s e : Nat) : ℚ :=
  (((((e : ℤ) * 60 - (s : ℤ) * 60) % 86400 : ℤ) : ℚ)) / 3600

/-- `next((b for b in self.batches if b.id == batch_id), None)`. -/
def findBatch (env : Env) (batch_id : Nat) : Option Batch :=
  env.batches.find? (fun b => b.id == batch_id)

/-- `batch.max_classes_per_day if batch else Config.MAX_CLASSES_PER_DAY`. -/
def maxClassesOf (env : Env) (batch_id : Nat) : Nat :=
  match findBatch env batch_id with
  | some b => b.max_classes_per_day
  | none => MAX_CLASSES_PER_DAY

/-- `next((f for f in self.faculty if f.id == faculty_id), None)`. -/
def findFaculty (env : Env) (faculty_id : Nat) : Option Faculty :=
  env.faculty.find? (fun f => f.id == faculty_id)

/-! ### Constraint checks (`calculate_comprehensive_fitness` and helpers)

The source marks most hard-constraint checks `# Placeholder`: they return
`0` for every schedule.  They are embedded exactly as written. -/

/-- Placeholder in the source: `return 0`. -/
def check_room_conflicts (_env : Env) (_schedule : List ScheduleEntry) : Nat := 0

/-- Placeholder in the source: `return 0`. -/
def check_faculty_conflicts (_env : Env) (_schedule : List ScheduleEntry) : Nat := 0

/-- Placeholder in the source: `return 0`. -/
def check_batch_conflicts (_env : Env) (_schedule : List ScheduleEntry) : Nat := 0

/-- Placeholder in the source: `return 0`. -/
def check_capacity_violations (_env : Env) (_schedule : List ScheduleEntry) : Nat := 0

/-- Placeholder in the source: `return 0`. -/
def check_shift_violations (_env : Env) (_schedule : List ScheduleEntry) : Nat := 0

/-- Placeholder in the source: `return 0`. -/
def check_faculty_availability_violations (_env : Env) (_schedule : List ScheduleEntry) : Nat := 0

/-- Placeholder in the source: `return 0`. -/
def check_special_class_violations (_env : Env) (_schedule : List ScheduleEntry) : Nat := 0

/-- Placeholder in the source: `return 0`. -/
def check_lab_conflicts (_env : Env) (_schedule : List ScheduleEntry) : Nat := 0

/-- Placeholder in the source: `return 0`. -/
def check_lab_duration_violations (_env : Env) (_schedule : List ScheduleEntry) : Nat := 0

/-- Placeholder in the source: `return 0`. -/
def check_elective_sync_violations (_env : Env) (_schedule : List ScheduleEntry) : Nat := 0

/-- Placeholder in the source: `return 0`. -/
def calculate_lab_utilization_score (_env : Env) (_schedule : List ScheduleEntry) : ℚ := 0

/-- Number of schedule entries for a given batch on a given day. -/
def countBD (schedule : List ScheduleEntry) (b : Nat) (d : String) : Nat :=
  (schedule.filter (fun e => e.batch_id == b && e.day == d)).length

/-- The distinct `(batch_id, day)` pairs occurring in a schedule
(the key set of the source's nested `batch_daily_count` dict; the
violation total below does not depend on key order). -/
def batchDayPairs (schedule : List ScheduleEntry) : List (Nat × String) :=
  (schedule.map (fun e => (e.batch_id, e.day))).dedup

/-- `check_max_classes_per_day_violations`: for every batch/day pair, the
excess of the day's class count over the batch's cap, summed. -/
def check_max_classes_per_day_violations (env : Env) (schedule : List ScheduleEntry) : Nat :=
  (batchDayPairs schedule).foldl
    (fun acc bd => acc + (countBD schedule bd.1 bd.2 - maxClassesOf env bd.1)) 0

/-- `calculate_classroom_utilization_score`. -/
def calculate_classroom_utilization_score (env : Env) (schedule : List ScheduleEntry) : ℚ :=
  let usage := schedule.filter (fun e => e.venue_type == "classroom")
  if usage.isEmpty then 0
  else
    let total_slots := WORKING_DAYS.length * TIME_SLOTS.length
    let total_possible_usage := env.classrooms.length * total_slots
    let utilization_rate : ℚ :=
      if 0 < total_possible_usage then (usage.length : ℚ) / (total_possible_usage : ℚ) else 0
    if MIN_CLASSROOM_UTILIZATION ≤ utilization_rate ∧
        utilization_rate ≤ MAX_CLASSROOM_UTILIZATION then 20
    else if MIN_CLASSROOM_UTILIZATION * (4 / 5) ≤ utilization_rate ∧
        utilization_rate ≤ MAX_CLASSROOM_UTILIZATION * (11 / 10) then 15
    else 5

/-- Key set of the source's `faculty_hours` dict (dict-key order does not
affect the sums below). -/
def facultyIds (schedule : List ScheduleEntry) : List Nat :=
  (schedule.map (fun e => e.faculty_id)).dedup

/-- Weekly hours taught by one faculty member in a candidate. -/
def weeklyHours (schedule : List ScheduleEntry) (f : Nat) : ℚ :=
  ((schedule.filter (fun e => e.faculty_id == f)).map
    (fun e => durationHours e.start_time e.end_time)).sum

/-- Days on which one faculty member teaches (key set of
`faculty_daily_hours[faculty_id]`). -/
def facultyDays (schedule : List ScheduleEntry) (f : Nat) : List String :=
  ((schedule.filter (fun e => e.faculty_id == f)).map (fun e => e.day)).dedup

/-- Hours taught by one faculty member on one day. -/
def dailyHours (schedule : List ScheduleEntry) (f : Nat) (d : String) : ℚ :=
  ((schedule.filter (fun e => e.faculty_id == f && e.day == d)).map
    (fun e => durationHours e.start_time e.end_time)).sum

/-- Hour-cap excess contributed by one faculty member (`violations` in
`calculate_faculty_load_balance_score`; faculty ids not found in
`self.faculty` are skipped by `continue`). -/
def facultyViolations (env : Env) (schedule : List ScheduleEntry) (f : Nat) : ℚ :=
  match findFaculty env f with
  | none => 0
  | some fac =>
    (if (fac.max_hours_per_week : ℚ) < weeklyHours schedule f then
      weeklyHours schedule f - (fac.max_hours_per_week : ℚ) else 0) +
    ((facultyDays schedule f).map (fun d =>
      if (fac.max_hours_per_day : ℚ) < dailyHours schedule f d then
        dailyHours schedule f d - (fac.max_hours_per_day : ℚ) else 0)).sum

/-- `calculate_faculty_load_balance_score`.  `std_dev < c` comparisons are
expressed on the variance (`std_dev = variance ** 0.5`, and both sides are
nonnegative, so `std_dev < c ↔ variance < c²`). -/
def calculate_faculty_load_balance_score (env : Env) (schedule : List ScheduleEntry) : ℚ :=
  let ids := facultyIds schedule
  let violations := (ids.map (facultyViolations env schedule)).sum
  let balance_score : ℚ :=
    if ids.isEmpty then 0
    else
      let hours_list := ids.map (weeklyHours schedule)
      let avg_hours := hours_list.sum / (hours_list.length : ℚ)
      let variance := (hours_list.map (fun h => (h - avg_hours) ^ 2)).sum / (hours_list.length : ℚ)
      if variance < 4 then 20
      else if variance < 16 then 15
      else if variance < 36 then 10
      else 5
  balance_score - violations

/-- `calculate_comprehensive_fitness`: base 1000, weighted penalties and
bonuses, floored at zero by `max(0, fitness_score)`. -/
def calculate_comprehensive_fitness (env : Env) (schedule : List ScheduleEntry) : ℚ :=
  let fitness_score : ℚ := 1000
    - (check_room_conflicts env schedule : ℚ) * OPTIMIZATION_WEIGHTS "room_conflicts"
    - (check_faculty_conflicts env schedule : ℚ) * OPTIMIZATION_WEIGHTS "faculty_conflicts"
    - (check_batch_conflicts env schedule : ℚ) * OPTIMIZATION_WEIGHTS "batch_conflicts"
    - (check_capacity_violations env schedule : ℚ) * OPTIMIZATION_WEIGHTS "capacity_violations"
    - (check_shift_violations env schedule : ℚ) * OPTIMIZATION_WEIGHTS "shift_violations"
    - (check_max_classes_per_day_violations env schedule : ℚ) * OPTIMIZATION_WEIGHTS "max_classes_per_day"
    - (check_faculty_availability_violations env schedule : ℚ) * OPTIMIZATION_WEIGHTS "faculty_availability_violations"
    - (check_special_class_violations env schedule : ℚ) * OPTIMIZATION_WEIGHTS "special_class_violations"
    - (check_lab_conflicts env schedule : ℚ) * OPTIMIZATION_WEIGHTS "lab_conflicts"
    - (check_lab_duration_violations env schedule : ℚ) * OPTIMIZATION_WEIGHTS "lab_duration_violations"
    - (check_elective_sync_violations env schedule : ℚ) * OPTIMIZATION_WEIGHTS "elective_sync_violations"
    + calculate_classroom_utilization_score env schedule * OPTIMIZATION_WEIGHTS "classroom_utilization"
    + calculate_lab_utilization_score env schedule * OPTIMIZATION_WEIGHTS "lab_utilization"
    + calculate_faculty_load_balance_score env schedule * OPTIMIZATION_WEIGHTS "faculty_load_balance"
  max 0 fitness_score

/-! ### Mutation and crossover -/

/-- Random draws consumed for one entry inside `comprehensive_mutation`:
`go` is `random.random() < self.mutation_rate`, `kind % 3` selects among
`['day', 'time', 'venue']`, and `pick` drives the `random.choice` over the
relevant list (reduced modulo its length, so every choice is reachable). -/
structure MutEntry where
  go : Bool
  kind : Nat
  pick : Nat
deriving Repr, Inhabited

/-- Body of the `comprehensive_mutation` loop for one entry.  Fixed classes
are skipped before any field is written. -/
def mutateEntry (env : Env) (m : MutEntry) (e : ScheduleEntry) : ScheduleEntry :=
  if !m.go then e
  else if e.is_fixed then e
  else
    match m.kind % 3 with
    | 0 => { e with day := WORKING_DAYS.getD (m.pick % WORKING_DAYS.length) "Monday" }
    | 1 =>
      let slot := TIME_SLOTS.getD (m.pick % TIME_SLOTS.length) (540, 600)
      { e with start_time := slot.1, end_time := slot.2 }
    | _ =>
      if e.class_type == "lab" then
        if env.laboratories.isEmpty then e
        else { e with
          venue_id := (env.laboratories.getD (m.pick % env.laboratories.length) default).id,
          venue_type := "laboratory" }
      else
        if env.classrooms.isEmpty then e
        else { e with
          venue_id := (env.classrooms.getD (m.pick % env.classrooms.length) default).id,
          venue_type := "classroom" }

/-- `comprehensive_mutation`: apply `mutateEntry` at every index, with the
oracle `mo` supplying the index's random draws (an empty individual is
returned unchanged, as in the source's early return). -/
def comprehensive_mutation (env : Env) (mo : Nat → MutEntry) :
    Nat → List ScheduleEntry → List ScheduleEntry
  | _, [] => []
  | i, e :: rest => mutateEntry env (mo i) e :: comprehensive_mutation env mo (i + 1) rest

/-- `enhanced_crossover`: `skip` is `random.random() > self.crossover_rate`;
`crossover_point` comes from `random.randint(1, min(len, len) - 1)` and is
passed in explicitly.  One-point crossover swaps the tails. -/
def enhanced_crossover (skip : Bool) (crossover_point : Nat)
    (parent1 parent2 : List ScheduleEntry) :
    List ScheduleEntry × List ScheduleEntry :=
  if skip || parent1.length == 0 || parent2.length == 0 then (parent1, parent2)
  else
    (parent1.take crossover_point ++ parent2.drop crossover_point,
     parent2.take crossover_point ++ parent1.drop crossover_point)

/-! ### Daily-cap enforcement and schedule construction -/

/-- Placeholder in the source: `return None` (rescheduling never succeeds). -/
def reschedule_to_different_day (_entry : ScheduleEntry)
    (_counts : Nat → String → Nat) (_max_classes : Nat) : Option ScheduleEntry :=
  none

/-- Sort key of `enforce_max_classes_per_day`:
`(not x.get('is_fixed', False), x.get('priority', 99))`, compared
lexicographically (Python's stable ascending sort). -/
def enforceKeyLe (a b : ScheduleEntry) : Bool :=
  let ka : Nat := if a.is_fixed then 0 else 1
  let kb : Nat := if b.is_fixed then 0 else 1
  ka < kb || (ka == kb && a.priority ≤ b.priority)

/-- Loop state of `enforce_max_classes_per_day`: the lazily-initialised
`batch_daily_count` nested dict (as a total function defaulting to 0), the
`adjusted_schedule` accumulator, and `self.conflicts`. -/
structure EnforceState where
  counts : Nat → String → Nat
  adjusted : List ScheduleEntry
  conflicts : List Conflict

/-- One iteration of the `enforce_max_classes_per_day` loop. -/
def enforceStep (env : Env) (st : EnforceState) (e : ScheduleEntry) : EnforceState :=
  let b := e.batch_id
  let d := e.day
  let max_classes := maxClassesOf env b
  let bump : Nat → String → Nat := fun b' d' =>
    if b' = b ∧ d' = d then st.counts b d + 1 else st.counts b' d'
  if st.counts b d < max_classes then
    { counts := bump, adjusted := st.adjusted ++ [e], conflicts := st.conflicts }
  else if e.is_fixed then
    { counts := bump, adjusted := st.adjusted ++ [e],
      conflicts := st.conflicts ++
        [{ ctype := "max_classes_exceeded", subject_id := none, batch_id := b, day := d,
           count := some (st.counts b d + 1), limit := some max_classes,
           reason := "Fixed class caused limit exceeded" }] }
  else
    match reschedule_to_different_day e st.counts max_classes with
    | some r =>
      { counts := fun b' d' =>
          if b' = b ∧ d' = r.day then st.counts b r.day + 1 else st.counts b' d',
        adjusted := st.adjusted ++ [r], conflicts := st.conflicts }
    | none =>
      { counts := st.counts, adjusted := st.adjusted,
        conflicts := st.conflicts ++
          [{ ctype := "max_classes_exceeded", subject_id := some e.subject_id,
             batch_id := b, day := d, count := none, limit := none,
             reason := "Could not reschedule within daily limit" }] }

/-- `enforce_max_classes_per_day`: stable-sort fixed classes (then lower
priority values) first, then admit entries day-by-day up to each batch's
cap; fixed classes are always kept.  Conflicts are appended to the incoming
`self.conflicts` list. -/
def enforce_max_classes_per_day (env : Env) (schedule : List ScheduleEntry)
    (conflicts0 : List Conflict) : List ScheduleEntry × List Conflict :=
  let sorted := schedule.mergeSort enforceKeyLe
  let st := sorted.foldl (enforceStep env) ⟨fun _ _ => 0, [], conflicts0⟩
  (st.adjusted, st.conflicts)

/-- Placeholder in the source: `get_suitable_venue` always returns
`{'id': 1, 'type': 'classroom'}`. -/
def get_suitable_venue (_subject_id _batch_id : Nat) : Nat × String :=
  (1, "classroom")

/-- The entry dict appended for one `SpecialClass` in step 1 of
`create_comprehensive_schedule` (`is_fixed = True`). -/
def specialEntry (sp : SpecialClass) : ScheduleEntry :=
  let venue := get_suitable_venue sp.subject_id sp.batch_id
  { subject_id := sp.subject_id
    batch_id := sp.batch_id
    faculty_id := sp.faculty_id
    venue_id := venue.1
    venue_type := venue.2
    day := convert_day_number_to_name sp.day_of_week
    start_time := sp.start_time
    end_time := sp.end_time
    is_fixed := true
    shift := get_time_shift sp.start_time
    class_type := sp.class_type
    priority := sp.priority }

/-- Placeholder in the source: `schedule_lab_sessions` returns `[]`. -/
def schedule_lab_sessions (_env : Env) : List ScheduleEntry := []

/-- Placeholder in the source: `schedule_electives_advanced` returns `[]`. -/
def schedule_electives_advanced (_env : Env) : List ScheduleEntry := []

/-- Placeholder in the source: `schedule_theory_classes` returns `[]`. -/
def schedule_theory_classes (_env : Env) (_existing : List ScheduleEntry) :
    List ScheduleEntry := []

/-- `create_comprehensive_schedule`: special classes first (the placeholder
venue lookup always succeeds, so every special class is appended), then the
placeholder lab/elective/theory steps, then the daily-cap adjustment. -/
def create_comprehensive_schedule (env : Env) (conflicts0 : List Conflict) :
    List ScheduleEntry × List Conflict :=
  let schedule := env.special_classes.map specialEntry
  let schedule := schedule ++ schedule_lab_sessions env
  let schedule := schedule ++ schedule_electives_advanced env
  let schedule := schedule ++ schedule_theory_classes env schedule
  enforce_max_classes_per_day env schedule conflicts0

/-! ### Evolutionary search (`optimize_with_comprehensive_constraints`) -/

/-- `fitness_scores[i]` (indices produced below are always in range). -/
def scoreAt (scores : List ℚ) (i : Nat) : ℚ := scores.getD i 0

/-- `indices[np.argmax([scores[i] for i in indices])]`: the first index in
the list attaining the maximal score (`np.argmax` returns the first
maximum; the fold replaces only on a strictly greater score). -/
def pickWinner (scores : List ℚ) : List Nat → Nat
  | [] => 0
  | j :: t => t.foldl (fun w j' => if scoreAt scores w < scoreAt scores j' then j' else w) j

/-- `tournament_selection` (default `tournament_size=3`): sample
`min(3, len(population))` indices — the oracle `s` supplies the draws of
`random.sample(range(len(population)), ...)`, reduced modulo the population
size — and return the population member with the best sampled fitness. -/
def tournament_selection (pop : List (List ScheduleEntry)) (scores : List ℚ)
    (s : Nat → Nat) : List ScheduleEntry :=
  let n := pop.length
  let k := min 3 n
  let idxs := (List.range k).map (fun j => s j % n)
  pop.getD (pickWinner scores idxs) []

/-- `np.argsort(fitness_scores)`: the indices `0..n-1` ordered by ascending
score (ties broken by original index here; only membership in the top
segment matters to the proofs below). -/
def argsortAsc (scores : List ℚ) : List Nat :=
  (List.range scores.length).mergeSort (fun i j => decide (scoreAt scores i ≤ scoreAt scores j))

/-- `np.argsort(fitness_scores)[-elite_count:]` with
`elite_count = max(1, population_size // 10)`. -/
def eliteIndices (population_size : Nat) (scores : List ℚ) : List Nat :=
  let elite_count := max 1 (population_size / 10)
  (argsortAsc scores).drop (scores.length - elite_count)

/-- Random draws for one run of the generation loop, indexed by generation
and by offspring-pair iteration: tournament samples for the two parents,
the crossover skip/point draws, and the per-entry mutation draws. -/
structure Oracle where
  tourA : Nat → Nat → Nat → Nat
  tourB : Nat → Nat → Nat → Nat
  skipCross : Nat → Nat → Bool
  crossPick : Nat → Nat → Nat
  mutA : Nat → Nat → Nat → MutEntry
  mutB : Nat → Nat → Nat → MutEntry
deriving Inhabited

/-- `random.randint(1, min(len(parent1), len(parent2)) - 1)`: a value in
`[1, min - 1]` when `min ≥ 2`.  (For two nonempty parents with `min = 1`
the source's `randint(1, 0)` would raise; taking the point as 1 there makes
same-length singleton parents pass through unchanged.) -/
def crossoverPoint (o : Nat) (parent1 parent2 : List ScheduleEntry) : Nat :=
  let m := min parent1.length parent2.length
  if 2 ≤ m then 1 + o % (m - 1) else 1

/-- The `while len(new_population) < self.population_size` offspring loop.
Each iteration appends two mutated crossover offspring, so
`fuel = population_size` always suffices for the loop to reach its bound. -/
def offspringLoop (env : Env) (orc : Oracle) (g : Nat)
    (pop : List (List ScheduleEntry)) (scores : List ℚ) :
    Nat → Nat → List (List ScheduleEntry) → List (List ScheduleEntry)
  | 0, _, newPop => newPop
  | fuel + 1, j, newPop =>
    if newPop.length < env.population_size then
      let parent1 := tournament_selection pop scores (orc.tourA g j)
      let parent2 := tournament_selection pop scores (orc.tourB g j)
      let off := enhanced_crossover (orc.skipCross g j)
        (crossoverPoint (orc.crossPick g j) parent1 parent2) parent1 parent2
      let offspring1 := comprehensive_mutation env (orc.mutA g j) 0 off.1
      let offspring2 := comprehensive_mutation env (orc.mutB g j) 0 off.2
      offspringLoop env orc g pop scores fuel (j + 1) (newPop ++ [offspring1, offspring2])
    else newPop

/-- One generation's reproduction: elitism then offspring, truncated to the
population size (`new_population[:self.population_size]`). -/
def nextPopulation (env : Env) (orc : Oracle) (g : Nat)
    (pop : List (List ScheduleEntry)) (scores : List ℚ) : List (List ScheduleEntry) :=
  let newPop := (eliteIndices env.population_size scores).map (fun i => pop.getD i [])
  (offspringLoop env orc g pop scores env.population_size 0 newPop).take env.population_size

/-- `max(fitness_scores) if fitness_scores else 0`. -/
def maxD : List ℚ → ℚ
  | [] => 0
  | h :: t => t.foldl max h

/-- `np.argmax(fitness_scores) if fitness_scores else 0`. -/
def argmaxList (scores : List ℚ) : Nat :=
  pickWinner scores (List.range scores.length)

/-- The best-ever tracker of the generation loop: replace the tracked best
only when the generation's best fitness is strictly greater. -/
def track_best (pop : List (List ScheduleEntry)) (scores : List ℚ)
    (best_individual : Option (List ScheduleEntry)) (best_fitness : ℚ) :
    Option (List ScheduleEntry) × ℚ :=
  let current_best := maxD scores
  if best_fitness < current_best then
    (some (pop.getD (argmaxList scores) []), current_best)
  else (best_individual, best_fitness)

/-- The `for generation in range(self.generations)` loop: evaluate, track
the best-ever candidate, break early once the generation's best reaches
900.0, otherwise evolve.  Returns the tracked best, its fitness, and the
final population (used by the `best_individual is None` fallback). -/
def genLoop (env : Env) (orc : Oracle) :
    Nat → Nat → List (List ScheduleEntry) → Option (List ScheduleEntry) → ℚ →
    Option (List ScheduleEntry) × ℚ × List (List ScheduleEntry)
  | _, 0, pop, best_individual, best_fitness => (best_individual, best_fitness, pop)
  | g, fuel + 1, pop, best_individual, best_fitness =>
    let scores := pop.map (calculate_comprehensive_fitness env)
    let tb := track_best pop scores best_individual best_fitness
    if 900 ≤ maxD scores then (tb.1, tb.2, pop)
    else genLoop env orc (g + 1) fuel (nextPopulation env orc g pop scores) tb.1 tb.2

/-- The initial-population loop: `population_size` calls of
`create_comprehensive_schedule`, each appending its conflicts to
`self.conflicts`. -/
def init_population (env : Env) :
    Nat → List Conflict → List (List ScheduleEntry) × List Conflict
  | 0, confl => ([], confl)
  | n + 1, confl =>
    let sc := create_comprehensive_schedule env confl
    let rest := init_population env n sc.2
    (sc.1 :: rest.1, rest.2)

/-- `optimize_with_comprehensive_constraints`: build the population, run the
generation loop starting from `best_individual = None`, `best_fitness = 0`;
if no generation improved on 0, fall back to
`population[0] if population else []` and recompute its fitness. -/
def optimize_with_comprehensive_constraints (env : Env) (orc : Oracle)
    (conflicts0 : List Conflict) : List ScheduleEntry × ℚ × List Conflict :=
  let ip := init_population env env.population_size conflicts0
  let r := genLoop env orc 0 env.generations ip.1 none 0
  match r.1 with
  | some best => (best, r.2.1, ip.2)
  | none =>
    let best := r.2.2.headD []
    (best, calculate_comprehensive_fitness env best, ip.2)

/-! ### Multi-solution driver (`generate_multiple_optimized_solutions`) -/

/-- One element of the returned `solutions` list.  The source also attaches
a `metrics` dict (`calculate_solution_metrics`); no verified property
mentions it, and its `faculty_load_balance` entry is a floating-point
square root, so it is not carried here. -/
structure Solution where
  schedule : List ScheduleEntry
  fitness : ℚ
  conflicts : List Conflict
deriving Repr, Inhabited

/-- The `for i in range(num_solutions)` loop: run `i` perturbs the
population size by `i * 5` (the `mutation_rate + i * 0.02` perturbation
only shifts `random.random()` comparisons, which the per-run oracle
`orcs i` absorbs); `self.conflicts` is reset to `[]` between runs, so each
run starts with an empty conflict list. -/
def solutionRuns (env : Env) (orcs : Nat → Oracle) : Nat → Nat → List Solution
  | _, 0 => []
  | i, k + 1 =>
    let envI := { env with population_size := env.population_size + i * 5 }
    let r := optimize_with_comprehensive_constraints envI (orcs i) []
    { schedule := r.1, fitness := r.2.1, conflicts := r.2.2 } ::
      solutionRuns env orcs (i + 1) k

/-- `generate_multiple_optimized_solutions`: collect the runs, then
`solutions.sort(key=lambda x: x['fitness'], reverse=True)` — a stable sort
by fitness descending. -/
def generate_multiple_optimized_solutions (env : Env) (orcs : Nat → Oracle)
    (num_solutions : Nat) : List Solution :=
  (solutionRuns env orcs 0 num_solutions).mergeSort
    (fun a b => decide (b.fitness ≤ a.fitness))

/-! ### Derived notions used by the verified properties -/

/-- Number of entries carrying `is_fixed == True`. -/
def countFixed (s : List ScheduleEntry) : Nat :=
  s.countP (fun e => e.is_fixed)

/-- A `max_classes_exceeded` conflict recording a dropped (non-fixed)
entry, as opposed to one recording a kept fixed entry. -/
def isDropConflict (c : Conflict) : Bool :=
  c.ctype == "max_classes_exceeded" &&
    c.reason == "Could not reschedule within daily limit"

/-- `p` agrees with the constructed schedule `base` on the fixed layout:
same positional `is_fixed` pattern, and at every position where `base`
holds a fixed entry, `p` holds that same entry, bit-identically. -/
def PatFix (base p : List ScheduleEntry) : Prop :=
  p.map (fun e => e.is_fixed) = base.map (fun e => e.is_fixed) ∧
  ∀ (i : Nat) (e : ScheduleEntry), base[i]? = some e → e.is_fixed = true → p[i]? = some e

/-- Invariant of the `enforce_max_classes_per_day` loop state: the
`batch_daily_count` dict counts exactly the admitted entries; any batch/day
over its cap consists of fixed entries only; and any batch/day over its cap
has a `max_classes_exceeded` conflict on record. -/
def EnforceGood (env : Env) (st : EnforceState) : Prop :=
  (∀ b d, st.counts b d = countBD st.adjusted b d) ∧
  (∀ b d, countBD st.adjusted b d ≤ maxClassesOf env b ∨
    ∀ e ∈ st.adjusted, e.batch_id = b → e.day = d → e.is_fixed = true) ∧
  (∀ b d, countBD st.adjusted b d ≤ maxClassesOf env b ∨
    ∃ c ∈ st.conflicts, c.ctype = "max_classes_exceeded" ∧ c.batch_id = b ∧ c.day = d)

/-! ### Concrete snapshots and schedules used as test inputs -/

/-- Snapshot with one batch of 70 students and one classroom of capacity 60
(GA sizes at their `Config` defaults). -/
def env4 : Env :=
  { classrooms := [⟨1, 60⟩], laboratories := [], faculty := [⟨1, 6, 30⟩],
    subjects := [⟨1, 1, 3, 0⟩], batches := [⟨1, 70, 6⟩], special_classes := [],
    population_size := 50, generations := 100 }

/-- Same snapshot with the classroom enlarged to capacity 100, removing the
capacity violation. -/
def env4' : Env :=
  { env4 with classrooms := [⟨1, 100⟩] }

/-- The entry placing batch 1 (70 students) in classroom 1 (capacity 60),
Monday 09:00–10:00. -/
def entry70 : ScheduleEntry :=
  { subject_id := 1, batch_id := 1, faculty_id := 1, venue_id := 1,
    venue_type := "classroom", day := "Monday", start_time := 540, end_time := 600,
    is_fixed := false, shift := "morning", class_type := "theory", priority := 99 }

/-- Snapshot for the double-booking scenario: one classroom, two faculty. -/
def env5 : Env :=
  { classrooms := [⟨1, 200⟩], laboratories := [], faculty := [⟨1, 6, 30⟩, ⟨2, 6, 30⟩],
    subjects := [], batches := [⟨1, 30, 6⟩], special_classes := [],
    population_size := 50, generations := 100 }

/-- Monday 09:00–10:00 in classroom 1. -/
def entryA : ScheduleEntry :=
  { subject_id := 1, batch_id := 1, faculty_id := 1, venue_id := 1,
    venue_type := "classroom", day := "Monday", start_time := 540, end_time := 600,
    is_fixed := false, shift := "morning", class_type := "theory", priority := 99 }

/-- Monday 09:30–10:30 in the same classroom: overlaps `entryA`. -/
def entryB : ScheduleEntry :=
  { subject_id := 2, batch_id := 1, faculty_id := 2, venue_id := 1,
    venue_type := "classroom", day := "Monday", start_time := 570, end_time := 630,
    is_fixed := false, shift := "morning", class_type := "theory", priority := 99 }

/-- The same session moved to Tuesday: no overlap with `entryA`. -/
def entryB' : ScheduleEntry :=
  { entryB with day := "Tuesday" }

/-- Snapshot of a semester with zero subjects (hence zero special classes,
batches, etc.), GA sizes at their `Config` defaults. -/
def emptyEnv : Env :=
  { classrooms := [], laboratories := [], faculty := [], subjects := [],
    batches := [], special_classes := [], population_size := 50, generations := 100 }

/-- A special class pinned to Monday 09:00–10:00. -/
def spW : SpecialClass :=
  { subject_id := 1, batch_id := 1, faculty_id := 1, day_of_week := 1,
    start_time := 540, end_time := 600, class_type := "special", priority := 1 }

/-- Small snapshot with one special class, population 1, one generation. -/
def envW : Env :=
  { classrooms := [⟨1, 60⟩], laboratories := [], faculty := [⟨1, 6, 30⟩],
    subjects := [⟨1, 1, 3, 0⟩], batches := [⟨1, 30, 6⟩], special_classes := [spW],
    population_size := 1, generations := 1 }

/-! ## Theorems -/

/-- C3: for every snapshot and every candidate schedule, the fitness
returned by `calculate_comprehensive_fitness` is greater than or equal to
zero, regardless of the penalties accumulated, because the result is
floored by `max(0, fitness_score)`. -/
theorem fitness_floor (env : Env) (schedule : List ScheduleEntry) :
    0 ≤ calculate_comprehensive_fitness env schedule := by
  unfold calculate_comprehensive_fitness
  exact le_max_left 0 _

/-- C10: for parents with at least two entries each, the two offspring of
`enhanced_crossover` together hold exactly the same multiset of schedule
entries as the two parents together; and when crossover is skipped, each
offspring is a copy of its parent. -/
theorem crossover_preserves_entry_multiset (skip : Bool) (c : Nat)
    (p1 p2 : List ScheduleEntry) (h1 : 2 ≤ p1.length) (h2 : 2 ≤ p2.length) :
    ((enhanced_crossover skip c p1 p2).1 ++ (enhanced_crossover skip c p1 p2).2).Perm
      (p1 ++ p2) ∧
    (skip = true → enhanced_crossover skip c p1 p2 = (p1, p2)) := by
  constructor
  · unfold enhanced_crossover
    by_cases hs : (skip || p1.length == 0 || p2.length == 0) = true
    · simp [hs]
    · simp only [hs, if_false, Bool.false_eq_true]
      have key : ∀ (t1 d1 t2 d2 : List ScheduleEntry),
          ((t1 ++ d2) ++ (t2 ++ d1)).Perm ((t1 ++ d1) ++ (t2 ++ d2)) := by
        intro t1 d1 t2 d2
        rw [List.perm_iff_count]
        intro a
        simp only [List.count_append]
        omega
      have h := key (p1.take c) (p1.drop c) (p2.take c) (p2.drop c)
      rwa [List.take_append_drop, List.take_append_drop] at h
  · intro h
    subst h
    unfold enhanced_crossover
    simp

/-- Mutation never changes the `is_fixed` flag of any entry. -/
theorem mutateEntry_is_fixed (env : Env) (m : MutEntry) (e : ScheduleEntry) :
    (mutateEntry env m e).is_fixed = e.is_fixed := by
  unfold mutateEntry
  by_cases hg : m.go
  · by_cases hf : e.is_fixed
    · simp [hg, hf]
    · rcases hk : m.kind % 3 with _ | _ | k <;>
        simp [hg, hf, hk] <;> split_ifs <;> simp_all
  · simp [hg]

/-- Mutation returns a fixed entry unchanged. -/
theorem mutateEntry_fixed_id (env : Env) (m : MutEntry) (e : ScheduleEntry)
    (hf : e.is_fixed = true) : mutateEntry env m e = e := by
  unfold mutateEntry
  by_cases hg : m.go <;> simp [hg, hf]

/-- Positional description of `comprehensive_mutation`. -/
theorem comprehensive_mutation_getElem? (env : Env) (mo : Nat → MutEntry) :
    ∀ (l : List ScheduleEntry) (i j : Nat),
      (comprehensive_mutation env mo i l)[j]? =
        Option.map (mutateEntry env (mo (i + j))) l[j]? := by
  intro l
  induction l with
  | nil => intro i j; simp [comprehensive_mutation]
  | cons e rest ih =>
    intro i j
    cases j with
    | zero => simp [comprehensive_mutation]
    | succ j' =>
      have h := ih (i + 1) j'
      simpa [comprehensive_mutation, Nat.add_assoc, Nat.add_comm 1 j'] using h

/-- Mutation preserves the length of an individual. -/
theorem comprehensive_mutation_length (env : Env) (mo : Nat → MutEntry) :
    ∀ (i : Nat) (l : List ScheduleEntry),
      (comprehensive_mutation env mo i l).length = l.length := by
  intro i l
  induction l generalizing i with
  | nil => rfl
  | cons e rest ih => simp [comprehensive_mutation, ih]

/-- Mutation preserves the positional `is_fixed` pattern. -/
theorem comprehensive_mutation_pattern (env : Env) (mo : Nat → MutEntry) :
    ∀ (i : Nat) (l : List ScheduleEntry),
      (comprehensive_mutation env mo i l).map (fun e => e.is_fixed) =
        l.map (fun e => e.is_fixed) := by
  intro i l
  induction l generalizing i with
  | nil => rfl
  | cons e rest ih =>
    simp [comprehensive_mutation, mutateEntry_is_fixed, ih]

/-- `PatFix` is reflexive. -/
theorem patFix_refl (base : List ScheduleEntry) : PatFix base base :=
  ⟨rfl, fun _ _ h _ => h⟩

/-- `PatFix` forces equal lengths. -/
theorem patFix_length {base p : List ScheduleEntry} (h : PatFix base p) :
    p.length = base.length := by
  have := congrArg List.length h.1
  simpa using this

/-- Mutation preserves `PatFix` (fixed entries are skipped, the pattern is
untouched). -/
theorem patFix_mutation (env : Env) (mo : Nat → MutEntry)
    {base p : List ScheduleEntry} (h : PatFix base p) :
    PatFix base (comprehensive_mutation env mo 0 p) := by
  constructor
  · rw [comprehensive_mutation_pattern]
    exact h.1
  · intro i e hb hf
    have hp := h.2 i e hb hf
    rw [comprehensive_mutation_getElem?]
    simp [hp, mutateEntry_fixed_id _ _ _ hf]

/-- A one-point recombination of two `PatFix` individuals is again
`PatFix`: the fixed layout is positional and both parents share it. -/
theorem patFix_take_append_drop (c : Nat) {base p1 p2 : List ScheduleEntry}
    (h1 : PatFix base p1) (h2 : PatFix base p2) :
    PatFix base (p1.take c ++ p2.drop c) := by
  have l1 : p1.length = base.length := patFix_length h1
  have l2 : p2.length = base.length := patFix_length h2
  constructor
  · rw [List.map_append, List.map_take, List.map_drop, h1.1, h2.1, List.take_append_drop]
  · intro i e hb hf
    have hi : i < base.length := by
      by_contra hlt
      push_neg at hlt
      rw [List.getElem?_eq_none hlt] at hb
      exact Option.noConfusion hb
    have hlen : (p1.take c).length = min c p1.length := by
      simp [List.length_take]
    rw [List.getElem?_append]
    by_cases hc : i < (p1.take c).length
    · rw [if_pos hc]
      rw [List.getElem?_take, if_pos (by omega)]
      exact h1.2 i e hb hf
    · rw [if_neg hc]
      rw [List.getElem?_drop]
      have hidx : c + (i - (p1.take c).length) = i := by omega
      rw [hidx]
      exact h2.2 i e hb hf

/-- Both crossover offspring inherit `PatFix` from the parents. -/
theorem patFix_crossover (skip : Bool) (c : Nat) {base p1 p2 : List ScheduleEntry}
    (h1 : PatFix base p1) (h2 : PatFix base p2) :
    PatFix base (enhanced_crossover skip c p1 p2).1 ∧
    PatFix base (enhanced_crossover skip c p1 p2).2 := by
  unfold enhanced_crossover
  by_cases hs : (skip || p1.length == 0 || p2.length == 0) = true
  · simp only [hs, if_true]
    exact ⟨h1, h2⟩
  · simp only [hs, if_false, Bool.false_eq_true]
    exact ⟨patFix_take_append_drop c h1 h2, patFix_take_append_drop c h2 h1⟩

/-- A fold that at each step keeps the accumulator or replaces it with the
next element stays inside the listed candidates. -/
theorem foldl_choice_mem {f : Nat → Nat → Nat} (hf : ∀ w j, f w j = w ∨ f w j = j) :
    ∀ (t : List Nat) (acc : Nat), t.foldl f acc ∈ acc :: t := by
  intro t
  induction t with
  | nil => intro acc; simp
  | cons x rest ih =>
    intro acc
    rw [List.foldl_cons]
    rcases List.mem_cons.mp (ih (f acc x)) with h2 | h2
    · rw [h2]
      rcases hf acc x with h1 | h1 <;> simp [h1]
    · simp [h2]

/-- `pickWinner` returns one of the given indices. -/
theorem pickWinner_mem (scores : List ℚ) (idxs : List Nat) (h : idxs ≠ []) :
    pickWinner scores idxs ∈ idxs := by
  match idxs with
  | j :: t =>
    show t.foldl _ j ∈ j :: t
    exact foldl_choice_mem (fun w j' => by
      by_cases hlt : scoreAt scores w < scoreAt scores j' <;> simp [hlt]) t j

/-- Tournament selection returns a member of the population. -/
theorem tournament_selection_mem (pop : List (List ScheduleEntry)) (scores : List ℚ)
    (s : Nat → Nat) (hn : 0 < pop.length) :
    tournament_selection pop scores s ∈ pop := by
  unfold tournament_selection
  set n := pop.length with hn'
  have hk : 0 < min 3 n := by omega
  set idxs := (List.range (min 3 n)).map (fun j => s j % n) with hidxs
  have hne : idxs ≠ [] := by
    rw [hidxs]
    simp [List.range_eq_nil]
    omega
  have hmem := pickWinner_mem scores idxs hne
  have hlt : pickWinner scores idxs < n := by
    rw [hidxs] at hmem
    rcases List.mem_map.mp hmem with ⟨j, _, hj⟩
    rw [← hj]
    exact Nat.mod_lt _ hn
  rw [List.getD_eq_getElem _ _ hlt]
  exact List.getElem_mem _

/-- Elite indices are valid positions in the score list. -/
theorem eliteIndices_lt (population_size : Nat) (scores : List ℚ) :
    ∀ i ∈ eliteIndices population_size scores, i < scores.length := by
  intro i hi
  unfold eliteIndices at hi
  have h1 : i ∈ argsortAsc scores := List.mem_of_mem_drop hi
  unfold argsortAsc at h1
  have h2 : i ∈ List.range scores.length :=
    (List.mergeSort_perm (List.range scores.length) _).mem_iff.mp h1
  exact List.mem_range.mp h2

/-- Appending one entry bumps the batch/day count exactly when the entry
matches. -/
theorem countBD_append_one (s : List ScheduleEntry) (e : ScheduleEntry) (b : Nat) (d : String) :
    countBD (s ++ [e]) b d =
      countBD s b d + (if e.batch_id = b ∧ e.day = d then 1 else 0) := by
  unfold countBD
  rw [List.filter_append, List.length_append]
  congr 1
  by_cases h : e.batch_id = b ∧ e.day = d
  · simp [h.1, h.2]
  · rw [if_neg h]
    have : (e.batch_id == b && e.day == d) = false := by
      rcases Decidable.not_and_iff_or_not.mp h with h1 | h1 <;> simp [h1]
    simp [this]

/-- Appending an entry bumps the count at its own batch/day. -/
theorem countBD_append_self (s : List ScheduleEntry) (e : ScheduleEntry) :
    countBD (s ++ [e]) e.batch_id e.day = countBD s e.batch_id e.day + 1 := by
  rw [countBD_append_one,
    if_pos (⟨rfl, rfl⟩ : e.batch_id = e.batch_id ∧ e.day = e.day)]

/-- Appending an entry leaves other batch/day counts unchanged. -/
theorem countBD_append_other (s : List ScheduleEntry) (e : ScheduleEntry)
    (b : Nat) (d : String) (h : ¬(b = e.batch_id ∧ d = e.day)) :
    countBD (s ++ [e]) b d = countBD s b d := by
  rw [countBD_append_one, if_neg (fun hh => h ⟨hh.1.symm, hh.2.symm⟩)]
  omega

/-- Appending one entry bumps the fixed count exactly when it is fixed. -/
theorem countFixed_append_one (s : List ScheduleEntry) (e : ScheduleEntry) :
    countFixed (s ++ [e]) = countFixed s + (if e.is_fixed then 1 else 0) := by
  unfold countFixed
  rw [List.countP_append]
  congr 1
  by_cases h : e.is_fixed <;> simp [h, List.countP_cons]

/-- `countFixed` over a cons. -/
theorem countFixed_cons (e : ScheduleEntry) (s : List ScheduleEntry) :
    countFixed (e :: s) = (if e.is_fixed then 1 else 0) + countFixed s := by
  unfold countFixed
  rw [List.countP_cons]
  by_cases h : e.is_fixed <;> simp [h] <;> omega

/-- Filter length over a one-element append. -/
theorem filter_length_append_one {α : Type} (p : α → Bool) (l : List α) (c : α) :
    ((l ++ [c]).filter p).length =
      (l.filter p).length + (if p c then 1 else 0) := by
  rw [List.filter_append, List.length_append]
  by_cases h : p c <;> simp [h]

/-- Witness for C10 at concrete two-entry parents. -/
theorem crossover_preserves_entry_multiset_witness :
    2 ≤ ([entryA, entryB] : List ScheduleEntry).length ∧
    2 ≤ ([entryB', entry70] : List ScheduleEntry).length ∧
    (((enhanced_crossover false 1 [entryA, entryB] [entryB', entry70]).1 ++
      (enhanced_crossover false 1 [entryA, entryB] [entryB', entry70]).2).Perm
      ([entryA, entryB] ++ [entryB', entry70]) ∧
     (false = true →
      enhanced_crossover false 1 [entryA, entryB] [entryB', entry70] =
        ([entryA, entryB], [entryB', entry70]))) :=
  ⟨by decide, by decide,
    crossover_preserves_entry_multiset false 1 [entryA, entryB] [entryB', entry70]
      (by decide) (by decide)⟩

/-- `enforceStep`, case "under the cap": admit the entry. -/
theorem enforceStep_lt (env : Env) (st : EnforceState) (e : ScheduleEntry)
    (h : st.counts e.batch_id e.day < maxClassesOf env e.batch_id) :
    enforceStep env st e =
      { counts := fun b' d' =>
          if b' = e.batch_id ∧ d' = e.day then st.counts e.batch_id e.day + 1
          else st.counts b' d',
        adjusted := st.adjusted ++ [e], conflicts := st.conflicts } := by
  unfold enforceStep
  rw [if_pos h]

/-- `enforceStep`, case "over the cap but fixed": admit anyway, log a
conflict. -/
theorem enforceStep_fixed (env : Env) (st : EnforceState) (e : ScheduleEntry)
    (h : ¬st.counts e.batch_id e.day < maxClassesOf env e.batch_id)
    (hf : e.is_fixed = true) :
    enforceStep env st e =
      { counts := fun b' d' =>
          if b' = e.batch_id ∧ d' = e.day then st.counts e.batch_id e.day + 1
          else st.counts b' d',
        adjusted := st.adjusted ++ [e],
        conflicts := st.conflicts ++
          [{ ctype := "max_classes_exceeded", subject_id := none,
             batch_id := e.batch_id, day := e.day,
             count := some (st.counts e.batch_id e.day + 1),
             limit := some (maxClassesOf env e.batch_id),
             reason := "Fixed class caused limit exceeded" }] } := by
  unfold enforceStep
  rw [if_neg h]
  simp [hf]

/-- `enforceStep`, case "over the cap, not fixed": rescheduling is a
placeholder returning `None`, so the entry is dropped with a conflict. -/
theorem enforceStep_drop (env : Env) (st : EnforceState) (e : ScheduleEntry)
    (h : ¬st.counts e.batch_id e.day < maxClassesOf env e.batch_id)
    (hf : e.is_fixed = false) :
    enforceStep env st e =
      { counts := st.counts, adjusted := st.adjusted,
        conflicts := st.conflicts ++
          [{ ctype := "max_classes_exceeded", subject_id := some e.subject_id,
             batch_id := e.batch_id, day := e.day, count := none, limit := none,
             reason := "Could not reschedule within daily limit" }] } := by
  unfold enforceStep
  rw [if_neg h]
  simp [hf, reschedule_to_different_day]

/-- One `enforce_max_classes_per_day` iteration preserves the loop
invariant and accounts for the processed entry exactly once. -/
theorem enforceStep_master (env : Env) (st : EnforceState) (e : ScheduleEntry)
    (hg : EnforceGood env st)
    (hadj_fixed : e.is_fixed = true → ∀ a ∈ st.adjusted, a.is_fixed = true) :
    EnforceGood env (enforceStep env st e) ∧
    (∀ x ∈ st.adjusted, x ∈ (enforceStep env st e).adjusted) ∧
    (e.is_fixed = true → e ∈ (enforceStep env st e).adjusted) ∧
    (∀ a ∈ (enforceStep env st e).adjusted, a ∈ st.adjusted ∨ a = e) ∧
    ((enforceStep env st e).adjusted.length +
      ((enforceStep env st e).conflicts.filter isDropConflict).length =
      st.adjusted.length + (st.conflicts.filter isDropConflict).length + 1) ∧
    (countFixed (enforceStep env st e).adjusted =
      countFixed st.adjusted + (if e.is_fixed then 1 else 0)) := by
  obtain ⟨hA, hB, hF⟩ := hg
  by_cases h1 : st.counts e.batch_id e.day < maxClassesOf env e.batch_id
  · rw [enforceStep_lt env st e h1]
    dsimp only
    refine ⟨⟨?_, ?_, ?_⟩, ?_, ?_, ?_, ?_, ?_⟩
    · intro b d
      dsimp only
      by_cases hbd : b = e.batch_id ∧ d = e.day
      · obtain ⟨hb, hd⟩ := hbd
        subst hb; subst hd
        rw [if_pos (⟨rfl, rfl⟩ : e.batch_id = e.batch_id ∧ e.day = e.day),
          countBD_append_self, hA]
      · rw [if_neg hbd, countBD_append_other _ _ _ _ hbd, hA]
    · intro b d
      dsimp only
      by_cases hbd : b = e.batch_id ∧ d = e.day
      · obtain ⟨hb, hd⟩ := hbd
        subst hb; subst hd
        left
        rw [countBD_append_self]
        have := hA e.batch_id e.day
        omega
      · rw [countBD_append_other _ _ _ _ hbd]
        rcases hB b d with hok | hall
        · left; exact hok
        · right
          intro x hx hxb hxd
          rcases List.mem_append.mp hx with hx | hx
          · exact hall x hx hxb hxd
          · rw [List.mem_singleton.mp hx] at hxb hxd
            exact absurd ⟨hxb.symm, hxd.symm⟩ hbd
    · intro b d
      dsimp only
      by_cases hbd : b = e.batch_id ∧ d = e.day
      · obtain ⟨hb, hd⟩ := hbd
        subst hb; subst hd
        left
        rw [countBD_append_self]
        have := hA e.batch_id e.day
        omega
      · rw [countBD_append_other _ _ _ _ hbd]
        exact hF b d
    · intro x hx
      exact List.mem_append_left _ hx
    · intro _
      exact List.mem_append_right _ (List.mem_singleton.mpr rfl)
    · intro a ha
      rcases List.mem_append.mp ha with ha | ha
      · exact Or.inl ha
      · exact Or.inr (List.mem_singleton.mp ha)
    · simp only [List.length_append, List.length_singleton]
      omega
    · rw [countFixed_append_one]
  · by_cases hf : e.is_fixed
    · rw [enforceStep_fixed env st e h1 hf]
      dsimp only
      refine ⟨⟨?_, ?_, ?_⟩, ?_, ?_, ?_, ?_, ?_⟩
      · intro b d
        dsimp only
        by_cases hbd : b = e.batch_id ∧ d = e.day
        · obtain ⟨hb, hd⟩ := hbd
          subst hb; subst hd
          rw [if_pos (⟨rfl, rfl⟩ : e.batch_id = e.batch_id ∧ e.day = e.day),
          countBD_append_self, hA]
        · rw [if_neg hbd, countBD_append_other _ _ _ _ hbd, hA]
      · intro b d
        dsimp only
        by_cases hbd : b = e.batch_id ∧ d = e.day
        · obtain ⟨hb, hd⟩ := hbd
          subst hb; subst hd
          right
          intro x hx _ _
          rcases List.mem_append.mp hx with hx | hx
          · exact hadj_fixed hf x hx
          · rw [List.mem_singleton.mp hx]
            exact hf
        · rw [countBD_append_other _ _ _ _ hbd]
          rcases hB b d with hok | hall
          · left; exact hok
          · right
            intro x hx hxb hxd
            rcases List.mem_append.mp hx with hx | hx
            · exact hall x hx hxb hxd
            · rw [List.mem_singleton.mp hx] at hxb hxd
              exact absurd ⟨hxb.symm, hxd.symm⟩ hbd
      · intro b d
        dsimp only
        by_cases hbd : b = e.batch_id ∧ d = e.day
        · obtain ⟨hb, hd⟩ := hbd
          subst hb; subst hd
          right
          refine ⟨_, List.mem_append_right _ (List.mem_singleton.mpr rfl), rfl, rfl, rfl⟩
        · rw [countBD_append_other _ _ _ _ hbd]
          rcases hF b d with hok | ⟨c, hc, hcp⟩
          · left; exact hok
          · right
            exact ⟨c, List.mem_append_left _ hc, hcp⟩
      · intro x hx
        exact List.mem_append_left _ hx
      · intro _
        exact List.mem_append_right _ (List.mem_singleton.mpr rfl)
      · intro a ha
        rcases List.mem_append.mp ha with ha | ha
        · exact Or.inl ha
        · exact Or.inr (List.mem_singleton.mp ha)
      · dsimp only
        rw [filter_length_append_one]
        have hnd : isDropConflict
            { ctype := "max_classes_exceeded", subject_id := none,
              batch_id := e.batch_id, day := e.day,
              count := some (st.counts e.batch_id e.day + 1),
              limit := some (maxClassesOf env e.batch_id),
              reason := "Fixed class caused limit exceeded" } = false := rfl
        rw [hnd]
        simp only [List.length_append, List.length_singleton, Bool.false_eq_true, if_false]
        omega
      · rw [countFixed_append_one]
    · have hf' : e.is_fixed = false := by
        revert hf
        cases e.is_fixed <;> simp
      rw [enforceStep_drop env st e h1 hf']
      dsimp only
      refine ⟨⟨hA, hB, ?_⟩, fun x hx => hx, ?_, fun a ha => Or.inl ha, ?_, ?_⟩
      · intro b d
        dsimp only
        rcases hF b d with hok | ⟨c, hc, hcp⟩
        · left; exact hok
        · right
          exact ⟨c, List.mem_append_left _ hc, hcp⟩
      · intro hft
        rw [hf'] at hft
        exact absurd hft (by simp)
      · dsimp only
        rw [filter_length_append_one]
        have hyd : isDropConflict
            { ctype := "max_classes_exceeded", subject_id := some e.subject_id,
              batch_id := e.batch_id, day := e.day, count := none, limit := none,
              reason := "Could not reschedule within daily limit" } = true := rfl
        rw [hyd]
        simp only [eq_self_iff_true, if_true]
        omega
      · rw [hf']
        simp

/-- The whole `enforce_max_classes_per_day` fold, over an input in which
every fixed entry precedes every non-fixed entry (the sorted order):
invariant preservation, fixed entries are never dropped, and per-entry
accounting (admitted once, or dropped with one drop conflict). -/
theorem enforce_fold_master (env : Env) :
    ∀ (l : List ScheduleEntry) (st : EnforceState),
      List.Pairwise (fun a b => b.is_fixed = true → a.is_fixed = true) l →
      EnforceGood env st →
      (∀ x ∈ l, x.is_fixed = true → ∀ a ∈ st.adjusted, a.is_fixed = true) →
      EnforceGood env (l.foldl (enforceStep env) st) ∧
      (∀ x ∈ st.adjusted, x ∈ (l.foldl (enforceStep env) st).adjusted) ∧
      (∀ x ∈ l, x.is_fixed = true → x ∈ (l.foldl (enforceStep env) st).adjusted) ∧
      ((l.foldl (enforceStep env) st).adjusted.length +
        ((l.foldl (enforceStep env) st).conflicts.filter isDropConflict).length =
        st.adjusted.length + (st.conflicts.filter isDropConflict).length + l.length) ∧
      (countFixed (l.foldl (enforceStep env) st).adjusted =
        countFixed st.adjusted + countFixed l) := by
  intro l
  induction l with
  | nil =>
    intro st _ hg _
    refine ⟨hg, fun x hx => hx, by simp, by simp, by simp [countFixed]⟩
  | cons e rest ih =>
    intro st hpw hg hc
    rw [List.foldl_cons]
    obtain ⟨hd1, hpw'⟩ := List.pairwise_cons.mp hpw
    obtain ⟨hg', hsub1, hemem, hsrc, hlen1, hcnt1⟩ :=
      enforceStep_master env st e hg (fun hf => hc e (List.mem_cons_self e rest) hf)
    have hc' : ∀ x ∈ rest, x.is_fixed = true →
        ∀ a ∈ (enforceStep env st e).adjusted, a.is_fixed = true := by
      intro x hx hxf a ha
      rcases hsrc a ha with ha' | ha'
      · exact hc x (List.mem_cons_of_mem _ hx) hxf a ha'
      · rw [ha']
        exact hd1 x hx hxf
    obtain ⟨hgF, hsubF, hfixF, hlenF, hcntF⟩ := ih (enforceStep env st e) hpw' hg' hc'
    refine ⟨hgF, fun x hx => hsubF x (hsub1 x hx), ?_, ?_, ?_⟩
    · intro x hx hxf
      rcases List.mem_cons.mp hx with hx' | hx'
      · subst hx'
        exact hsubF x (hemem hxf)
      · exact hfixF x hx' hxf
    · rw [List.length_cons]
      omega
    · rw [countFixed_cons]
      by_cases hf : e.is_fixed <;> simp only [hf, if_true, if_false] at hcnt1 ⊢ <;> omega

/-- Unfolding of the sort key comparison. -/
theorem enforceKeyLe_iff (a b : ScheduleEntry) :
    enforceKeyLe a b = true ↔
      ((if a.is_fixed then 0 else 1) : Nat) < (if b.is_fixed then 0 else 1) ∨
      (((if a.is_fixed then 0 else 1) : Nat) = (if b.is_fixed then 0 else 1) ∧
        a.priority ≤ b.priority) := by
  unfold enforceKeyLe
  simp

/-- After the stable sort of `enforce_max_classes_per_day`, every fixed
entry precedes every non-fixed entry. -/
theorem mergeSort_fixed_first (l : List ScheduleEntry) :
    List.Pairwise (fun a b => b.is_fixed = true → a.is_fixed = true)
      (l.mergeSort enforceKeyLe) := by
  have htrans : ∀ a b c : ScheduleEntry, enforceKeyLe a b = true →
      enforceKeyLe b c = true → enforceKeyLe a c = true := by
    intro a b c hab hbc
    rw [enforceKeyLe_iff] at *
    by_cases ha : a.is_fixed <;> by_cases hb : b.is_fixed <;> by_cases hc : c.is_fixed <;>
      simp [ha, hb, hc] at * <;> omega
  have htot : ∀ a b : ScheduleEntry, (enforceKeyLe a b || enforceKeyLe b a) = true := by
    intro a b
    rw [Bool.or_eq_true, enforceKeyLe_iff, enforceKeyLe_iff]
    by_cases ha : a.is_fixed <;> by_cases hb : b.is_fixed <;> simp [ha, hb] <;> omega
  have hp := List.sorted_mergeSort htrans htot l
  refine hp.imp ?_
  intro a b hab hbf
  rw [enforceKeyLe_iff] at hab
  rw [hbf] at hab
  by_cases ha : a.is_fixed
  · exact ha
  · simp [ha] at hab

/-- Unfolding equation for `enforce_max_classes_per_day`. -/
theorem enforce_eq (env : Env) (schedule : List ScheduleEntry)
    (conflicts0 : List Conflict) :
    enforce_max_classes_per_day env schedule conflicts0 =
      (((schedule.mergeSort enforceKeyLe).foldl (enforceStep env)
          ⟨fun _ _ => 0, [], conflicts0⟩).adjusted,
       ((schedule.mergeSort enforceKeyLe).foldl (enforceStep env)
          ⟨fun _ _ => 0, [], conflicts0⟩).conflicts) := rfl

/-- Specification of `enforce_max_classes_per_day`: (i) any batch/day over
its cap in the output consists only of fixed entries; (ii) any batch/day
over its cap has a `max_classes_exceeded` conflict on record; (iii) fixed
entries are never dropped; (iv) every input entry is either admitted or
accounted for by one drop conflict; (v) the fixed-entry count is
preserved. -/
theorem enforce_spec (env : Env) (schedule : List ScheduleEntry)
    (conflicts0 : List Conflict) :
    (∀ b d, countBD (enforce_max_classes_per_day env schedule conflicts0).1 b d ≤
        maxClassesOf env b ∨
      ∀ e ∈ (enforce_max_classes_per_day env schedule conflicts0).1,
        e.batch_id = b → e.day = d → e.is_fixed = true) ∧
    (∀ b d, countBD (enforce_max_classes_per_day env schedule conflicts0).1 b d ≤
        maxClassesOf env b ∨
      ∃ c ∈ (enforce_max_classes_per_day env schedule conflicts0).2,
        c.ctype = "max_classes_exceeded" ∧ c.batch_id = b ∧ c.day = d) ∧
    (∀ x ∈ schedule, x.is_fixed = true →
      x ∈ (enforce_max_classes_per_day env schedule conflicts0).1) ∧
    ((enforce_max_classes_per_day env schedule conflicts0).1.length +
        ((enforce_max_classes_per_day env schedule conflicts0).2.filter isDropConflict).length =
      schedule.length + (conflicts0.filter isDropConflict).length) ∧
    (countFixed (enforce_max_classes_per_day env schedule conflicts0).1 =
      countFixed schedule) := by
  have hperm := List.mergeSort_perm schedule enforceKeyLe
  have hg0 : EnforceGood env ⟨fun _ _ => 0, [], conflicts0⟩ := by
    refine ⟨fun b d => rfl, fun b d => Or.inl ?_, fun b d => Or.inl ?_⟩ <;>
      simp [countBD]
  obtain ⟨hgF, _, hfix, hlen, hcnt⟩ :=
    enforce_fold_master env (schedule.mergeSort enforceKeyLe)
      ⟨fun _ _ => 0, [], conflicts0⟩ (mergeSort_fixed_first schedule) hg0
      (by intro x _ _ a ha; exact absurd ha (List.not_mem_nil a))
  obtain ⟨_, hB, hF⟩ := hgF
  rw [enforce_eq]
  dsimp only
  dsimp only at hlen hcnt
  refine ⟨hB, hF, ?_, ?_, ?_⟩
  · intro x hx hxf
    exact hfix x (hperm.mem_iff.mpr hx) hxf
  · have hql := hperm.length_eq
    simp only [List.length_nil] at hlen
    omega
  · simp only [countFixed, List.countP_nil] at hcnt
    unfold countFixed
    rw [hcnt]
    simpa using hperm.countP_eq (fun e => e.is_fixed)

/-- The admitted schedule and the counters of the enforcement fold do not
depend on the incoming conflict list. -/
theorem enforce_fold_conflicts_indep (env : Env) :
    ∀ (l : List ScheduleEntry) (c1 c2 : List Conflict)
      (counts : Nat → String → Nat) (adj : List ScheduleEntry),
      (l.foldl (enforceStep env) ⟨counts, adj, c1⟩).adjusted =
        (l.foldl (enforceStep env) ⟨counts, adj, c2⟩).adjusted := by
  intro l
  induction l with
  | nil => intro c1 c2 counts adj; rfl
  | cons e rest ih =>
    intro c1 c2 counts adj
    rw [List.foldl_cons, List.foldl_cons]
    by_cases h1 : counts e.batch_id e.day < maxClassesOf env e.batch_id
    · rw [enforceStep_lt env _ e h1, enforceStep_lt env _ e h1]
      exact ih c1 c2 _ _
    · by_cases hf : e.is_fixed
      · rw [enforceStep_fixed env _ e h1 hf, enforceStep_fixed env _ e h1 hf]
        exact ih _ _ _ _
      · have hf' : e.is_fixed = false := by
          revert hf
          cases e.is_fixed <;> simp
        rw [enforceStep_drop env _ e h1 hf', enforceStep_drop env _ e h1 hf']
        exact ih _ _ _ _

/-- The constructed candidate does not depend on the conflicts accumulated
so far. -/
theorem create_schedule_conflicts_indep (env : Env) (c : List Conflict) :
    (create_comprehensive_schedule env c).1 =
      (create_comprehensive_schedule env []).1 := by
  unfold create_comprehensive_schedule
  rw [enforce_eq, enforce_eq]
  exact enforce_fold_conflicts_indep env _ c [] _ _

/-- The constructed candidate holds exactly one fixed entry per
`SpecialClass` record: the placeholder venue lookup always succeeds, the
placeholder lab/elective/theory steps add nothing, and the daily-cap
adjustment never drops a fixed entry. -/
theorem create_schedule_countFixed (env : Env) (c : List Conflict) :
    countFixed (create_comprehensive_schedule env c).1 =
      env.special_classes.length := by
  unfold create_comprehensive_schedule
  have h := (enforce_spec env
    (env.special_classes.map specialEntry ++ schedule_lab_sessions env ++
      schedule_electives_advanced env ++
      schedule_theory_classes env
        (env.special_classes.map specialEntry ++ schedule_lab_sessions env ++
          schedule_electives_advanced env)) c).2.2.2.2
  rw [h]
  simp only [schedule_lab_sessions, schedule_electives_advanced,
    schedule_theory_classes, List.append_nil]
  unfold countFixed
  rw [List.countP_eq_length.mpr]
  · rw [List.length_map]
  · intro a ha
    rcases List.mem_map.mp ha with ⟨sp, _, hsp⟩
    rw [← hsp]
    rfl

/-- Every member of the initial population is the (deterministically)
constructed candidate. -/
theorem init_population_mem (env : Env) :
    ∀ (n : Nat) (confl : List Conflict) (p : List ScheduleEntry),
      p ∈ (init_population env n confl).1 →
      p = (create_comprehensive_schedule env []).1 := by
  intro n
  induction n with
  | zero =>
    intro confl p hp
    exact absurd hp (List.not_mem_nil p)
  | succ m ih =>
    intro confl p hp
    rw [init_population] at hp
    rcases List.mem_cons.mp hp with hp' | hp'
    · rw [hp']
      exact create_schedule_conflicts_indep env confl
    · exact ih _ p hp'

/-- The initial population has `population_size` members. -/
theorem init_population_length (env : Env) :
    ∀ (n : Nat) (confl : List Conflict),
      (init_population env n confl).1.length = n := by
  intro n
  induction n with
  | zero => intro confl; rfl
  | succ m ih =>
    intro confl
    rw [init_population]
    simp [ih]

/-- `PatFix` individuals have the same number of fixed entries. -/
theorem patFix_countFixed {base p : List ScheduleEntry} (h : PatFix base p) :
    countFixed p = countFixed base := by
  have h1 : countFixed p = (p.map (fun e => e.is_fixed)).countP (fun b => b) := by
    rw [List.countP_map]
    rfl
  have h2 : countFixed base = (base.map (fun e => e.is_fixed)).countP (fun b => b) := by
    rw [List.countP_map]
    rfl
  rw [h1, h2, h.1]

/-- Every individual produced by the offspring loop satisfies `PatFix`
provided the current population and the partially built next population
do. -/
theorem offspringLoop_patFix (env : Env) (orc : Oracle) (g : Nat)
    (pop : List (List ScheduleEntry)) (scores : List ℚ) (base : List ScheduleEntry)
    (hpop : ∀ p ∈ pop, PatFix base p) (hn : 0 < pop.length) :
    ∀ (fuel j : Nat) (newPop : List (List ScheduleEntry)),
      (∀ q ∈ newPop, PatFix base q) →
      ∀ q ∈ offspringLoop env orc g pop scores fuel j newPop, PatFix base q := by
  intro fuel
  induction fuel with
  | zero =>
    intro j newPop hnew q hq
    exact hnew q hq
  | succ f ih =>
    intro j newPop hnew q hq
    rw [offspringLoop] at hq
    by_cases hlen : newPop.length < env.population_size
    · rw [if_pos hlen] at hq
      refine ih _ _ ?_ q hq
      intro r hr
      rcases List.mem_append.mp hr with hr | hr
      · exact hnew r hr
      · have hp1 : PatFix base (tournament_selection pop scores (orc.tourA g j)) :=
          hpop _ (tournament_selection_mem pop scores _ hn)
        have hp2 : PatFix base (tournament_selection pop scores (orc.tourB g j)) :=
          hpop _ (tournament_selection_mem pop scores _ hn)
        have hcx := patFix_crossover (orc.skipCross g j)
          (crossoverPoint (orc.crossPick g j)
            (tournament_selection pop scores (orc.tourA g j))
            (tournament_selection pop scores (orc.tourB g j))) hp1 hp2
        simp only [List.mem_cons, List.mem_singleton] at hr
        rcases hr with hr | hr | hr
        · rw [hr]
          exact patFix_mutation env _ hcx.1
        · rw [hr]
          exact patFix_mutation env _ hcx.2
        · exact absurd hr (List.not_mem_nil r)
    · rw [if_neg hlen] at hq
      exact hnew q hq

/-- The offspring loop never shrinks the accumulated population. -/
theorem offspringLoop_length_mono (env : Env) (orc : Oracle) (g : Nat)
    (pop : List (List ScheduleEntry)) (scores : List ℚ) :
    ∀ (fuel j : Nat) (newPop : List (List ScheduleEntry)),
      newPop.length ≤ (offspringLoop env orc g pop scores fuel j newPop).length := by
  intro fuel
  induction fuel with
  | zero => intro j newPop; exact le_refl _
  | succ f ih =>
    intro j newPop
    rw [offspringLoop]
    by_cases hlen : newPop.length < env.population_size
    · rw [if_pos hlen]
      refine le_trans ?_ (ih (j + 1) _)
      simp
    · rw [if_neg hlen]

/-- The next generation consists of `PatFix` individuals. -/
theorem nextPopulation_patFix (env : Env) (orc : Oracle) (g : Nat)
    (pop : List (List ScheduleEntry)) (scores : List ℚ) (base : List ScheduleEntry)
    (hpop : ∀ p ∈ pop, PatFix base p) (hn : 0 < pop.length)
    (hsl : scores.length = pop.length) :
    ∀ q ∈ nextPopulation env orc g pop scores, PatFix base q := by
  intro q hq
  unfold nextPopulation at hq
  have hq' := List.mem_of_mem_take hq
  refine offspringLoop_patFix env orc g pop scores base hpop hn _ _ _ ?_ q hq'
  intro r hr
  rcases List.mem_map.mp hr with ⟨i, hi, hri⟩
  have hilt : i < pop.length := by
    rw [← hsl]
    exact eliteIndices_lt _ scores i hi
  rw [← hri, List.getD_eq_getElem _ _ hilt]
  exact hpop _ (List.getElem_mem _)

/-- The next generation is nonempty (elitism keeps at least one member). -/
theorem nextPopulation_length_pos (env : Env) (orc : Oracle) (g : Nat)
    (pop : List (List ScheduleEntry)) (scores : List ℚ)
    (hps : 1 ≤ env.population_size) (hs : 0 < scores.length) :
    0 < (nextPopulation env orc g pop scores).length := by
  unfold nextPopulation
  rw [List.length_take]
  have hsort : (argsortAsc scores).length = scores.length := by
    unfold argsortAsc
    rw [(List.mergeSort_perm _ _).length_eq, List.length_range]
  have h1 : 0 < ((eliteIndices env.population_size scores).map
      (fun i => pop.getD i ([] : List ScheduleEntry))).length := by
    rw [List.length_map]
    unfold eliteIndices
    rw [List.length_drop, hsort]
    have hec : 1 ≤ max 1 (env.population_size / 10) := le_max_left _ _
    omega
  have h2 := offspringLoop_length_mono env orc g pop scores env.population_size 0
    ((eliteIndices env.population_size scores).map (fun i => pop.getD i []))
  omega

/-- `headD` of a nonempty list is a member. -/
theorem headD_mem {α : Type} (l : List α) (d : α) (h : 0 < l.length) :
    l.headD d ∈ l := by
  cases l with
  | nil => exact absurd h (by simp)
  | cons a t => simp

/-- Through the whole generation loop, the tracked best individual (when
present) and every member of the final population satisfy `PatFix`. -/
theorem genLoop_patFix (env : Env) (orc : Oracle) (base : List ScheduleEntry)
    (hps : 1 ≤ env.population_size) :
    ∀ (fuel g : Nat) (pop : List (List ScheduleEntry))
      (bi : Option (List ScheduleEntry)) (bf : ℚ),
      (∀ p ∈ pop, PatFix base p) → 0 < pop.length →
      (∀ s, bi = some s → PatFix base s) →
      (∀ s, (genLoop env orc g fuel pop bi bf).1 = some s → PatFix base s) ∧
      (∀ p ∈ (genLoop env orc g fuel pop bi bf).2.2, PatFix base p) ∧
      0 < (genLoop env orc g fuel pop bi bf).2.2.length := by
  intro fuel
  induction fuel with
  | zero =>
    intro g pop bi bf hpop hn hbi
    exact ⟨hbi, hpop, hn⟩
  | succ f ih =>
    intro g pop bi bf hpop hn hbi
    rw [genLoop]
    have hslen : (pop.map (calculate_comprehensive_fitness env)).length = pop.length :=
      List.length_map _ _
    have htb : ∀ s,
        (track_best pop (pop.map (calculate_comprehensive_fitness env)) bi bf).1 = some s →
        PatFix base s := by
      intro s hs
      unfold track_best at hs
      dsimp only at hs
      by_cases hlt : bf < maxD (pop.map (calculate_comprehensive_fitness env))
      · rw [if_pos hlt] at hs
        have hrange : (List.range (pop.map (calculate_comprehensive_fitness env)).length) ≠ [] := by
          intro hcontra
          rw [List.range_eq_nil, hslen] at hcontra
          omega
        have hmem := pickWinner_mem (pop.map (calculate_comprehensive_fitness env)) _ hrange
        have hi : argmaxList (pop.map (calculate_comprehensive_fitness env)) < pop.length := by
          have := List.mem_range.mp hmem
          unfold argmaxList
          rw [← hslen]
          exact this
        rw [List.getD_eq_getElem _ _ hi] at hs
        have hse := Option.some_inj.mp hs
        rw [← hse]
        exact hpop _ (List.getElem_mem _)
      · rw [if_neg hlt] at hs
        exact hbi s hs
    by_cases hstop : (900 : ℚ) ≤ maxD (pop.map (calculate_comprehensive_fitness env))
    · rw [if_pos hstop]
      exact ⟨htb, hpop, hn⟩
    · rw [if_neg hstop]
      exact ih (g + 1) (nextPopulation env orc g pop (pop.map (calculate_comprehensive_fitness env)))
        _ _
        (nextPopulation_patFix env orc g pop _ base hpop hn hslen)
        (nextPopulation_length_pos env orc g pop _ hps (by rw [hslen]; exact hn))
        htb

/-- The best schedule returned by the optimizer agrees with the
constructed schedule on the fixed layout. -/
theorem optimize_patFix (env : Env) (orc : Oracle) (conflicts0 : List Conflict)
    (hps : 1 ≤ env.population_size) :
    PatFix (create_comprehensive_schedule env []).1
      (optimize_with_comprehensive_constraints env orc conflicts0).1 := by
  have hpop : ∀ p ∈ (init_population env env.population_size conflicts0).1,
      PatFix (create_comprehensive_schedule env []).1 p := by
    intro p hp
    rw [init_population_mem env _ _ p hp]
    exact patFix_refl _
  have hn : 0 < (init_population env env.population_size conflicts0).1.length := by
    rw [init_population_length]
    omega
  obtain ⟨h1, h2, h3⟩ := genLoop_patFix env orc (create_comprehensive_schedule env []).1 hps
    env.generations 0 (init_population env env.population_size conflicts0).1 none 0
    hpop hn (by intro s hs; cases hs)
  unfold optimize_with_comprehensive_constraints
  dsimp only
  cases hr : (genLoop env orc 0 env.generations
      (init_population env env.population_size conflicts0).1 none 0).1 with
  | some best =>
    exact h1 best hr
  | none =>
    exact h2 _ (headD_mem _ _ h3)

/-- Enforcement of an empty schedule is a no-op. -/
theorem enforce_nil (env : Env) (c0 : List Conflict) :
    enforce_max_classes_per_day env [] c0 = ([], c0) := by
  rw [enforce_eq, List.mergeSort_nil, List.foldl_nil]

/-- Enforcement of a one-entry schedule admits the entry when the batch cap
is positive. -/
theorem enforce_singleton (env : Env) (e : ScheduleEntry) (c0 : List Conflict)
    (h : 0 < maxClassesOf env e.batch_id) :
    enforce_max_classes_per_day env [e] c0 = ([e], c0) := by
  rw [enforce_eq, List.mergeSort_singleton, List.foldl_cons, List.foldl_nil,
    enforceStep_lt env _ e h]
  rfl

/-- A snapshot without special classes constructs the empty candidate. -/
theorem create_schedule_empty (env : Env) (hsp : env.special_classes = [])
    (c0 : List Conflict) : create_comprehensive_schedule env c0 = ([], c0) := by
  unfold create_comprehensive_schedule
  rw [hsp]
  exact enforce_nil env c0

/-- The empty candidate scores exactly the base fitness 1000 (no penalties,
no bonuses). -/
theorem fitness_nil (env : Env) :
    calculate_comprehensive_fitness env [] = 1000 := by
  simp [calculate_comprehensive_fitness, check_room_conflicts,
    check_faculty_conflicts, check_batch_conflicts, check_capacity_violations,
    check_shift_violations, check_max_classes_per_day_violations,
    check_faculty_availability_violations, check_special_class_violations,
    check_lab_conflicts, check_lab_duration_violations,
    check_elective_sync_violations, calculate_lab_utilization_score,
    calculate_classroom_utilization_score, calculate_faculty_load_balance_score,
    batchDayPairs, facultyIds]

/-- Folding `max` over copies of the seed returns the seed. -/
theorem foldl_max_replicate (q : ℚ) :
    ∀ m : Nat, List.foldl max q (List.replicate m q) = q := by
  intro m
  induction m with
  | zero => rfl
  | succ k ih =>
    rw [List.replicate_succ, List.foldl_cons, max_self]
    exact ih

/-- `max(scores)` over a constant nonempty list. -/
theorem maxD_replicate (n : Nat) (q : ℚ) (h : 0 < n) :
    maxD (List.replicate n q) = q := by
  cases n with
  | zero => exact absurd h (by simp)
  | succ m =>
    rw [List.replicate_succ]
    show List.foldl max q (List.replicate m q) = q
    exact foldl_max_replicate q m

/-- With no special classes the initial population is all-empty and no
conflicts accumulate. -/
theorem init_population_empty (env : Env) (hsp : env.special_classes = []) :
    ∀ (n : Nat) (confl : List Conflict),
      init_population env n confl = (List.replicate n [], confl) := by
  intro n
  induction n with
  | zero => intro confl; rfl
  | succ m ih =>
    intro confl
    rw [init_population, create_schedule_empty env hsp confl]
    dsimp only
    rw [ih confl]
    rfl

/-- Any position of an all-empty population reads the empty candidate. -/
theorem getD_replicate_nil (n i : Nat) :
    (List.replicate n ([] : List ScheduleEntry)).getD i [] = [] := by
  rw [List.getD_eq_getElem?_getD, List.getElem?_replicate]
  by_cases h : i < n <;> simp [h]

/-- On an all-empty population the generation loop early-stops at once
(fitness 1000 ≥ 900), tracking the empty candidate. -/
theorem genLoop_empty (env : Env) (orc : Oracle) (n : Nat) (hn : 0 < n) :
    ∀ (fuel g : Nat), 0 < fuel →
      genLoop env orc g fuel (List.replicate n []) none 0 =
        (some [], 1000, List.replicate n []) := by
  intro fuel
  cases fuel with
  | zero => intro g h; exact absurd h (by simp)
  | succ f =>
    intro g _
    rw [genLoop]
    have hmap : (List.replicate n ([] : List ScheduleEntry)).map
        (calculate_comprehensive_fitness env) = List.replicate n 1000 := by
      rw [List.map_replicate, fitness_nil]
    rw [hmap]
    have hmax : maxD (List.replicate n (1000 : ℚ)) = 1000 := maxD_replicate n 1000 hn
    have htb : track_best (List.replicate n []) (List.replicate n 1000) none 0 =
        (some [], 1000) := by
      unfold track_best
      rw [hmax, if_pos (by norm_num), getD_replicate_nil]
    rw [htb, hmax, if_pos (by norm_num)]

/-- With no special classes, one optimizer run returns the empty schedule,
fitness 1000, and no conflicts — the search runs and early-stops. -/
theorem optimize_empty (env : Env) (orc : Oracle)
    (hsp : env.special_classes = []) (hps : 1 ≤ env.population_size) :
    optimize_with_comprehensive_constraints env orc [] = ([], 1000, []) := by
  unfold optimize_with_comprehensive_constraints
  rw [init_population_empty env hsp]
  dsimp only
  have hh : (List.replicate env.population_size ([] : List ScheduleEntry)).headD [] = [] := by
    cases env.population_size with
    | zero => rfl
    | succ m => rw [List.replicate_succ]; rfl
  cases hg : env.generations with
  | zero =>
    rw [genLoop]
    dsimp only
    rw [hh, fitness_nil]
  | succ m =>
    rw [genLoop_empty env orc env.population_size hps (m + 1) 0 (by omega)]

/-- With no special classes every driver run yields the same empty
solution. -/
theorem solutionRuns_empty (env : Env) (orcs : Nat → Oracle)
    (hsp : env.special_classes = []) (hps : 1 ≤ env.population_size) :
    ∀ (k i : Nat), solutionRuns env orcs i k =
      List.replicate k ⟨[], 1000, []⟩ := by
  intro k
  induction k with
  | zero => intro i; rfl
  | succ m ih =>
    intro i
    rw [solutionRuns]
    rw [optimize_empty { env with population_size := env.population_size + i * 5 }
      (orcs i) hsp (by dsimp only; omega)]
    dsimp only
    rw [ih (i + 1), List.replicate_succ]

/-- The driver's output on a zero-special-class snapshot: `num_solutions`
solutions, each with empty schedule, fitness 1000, empty conflicts, and no
notice of any kind. -/
theorem driver_empty_spec (env : Env) (orcs : Nat → Oracle) (num_solutions : Nat)
    (hsp : env.special_classes = []) (hps : 1 ≤ env.population_size) :
    (generate_multiple_optimized_solutions env orcs num_solutions).length =
      num_solutions ∧
    ∀ s ∈ generate_multiple_optimized_solutions env orcs num_solutions,
      s = ⟨[], 1000, []⟩ := by
  unfold generate_multiple_optimized_solutions
  rw [solutionRuns_empty env orcs hsp hps num_solutions 0]
  have hperm := List.mergeSort_perm (List.replicate num_solutions
    (⟨[], 1000, []⟩ : Solution)) (fun a b => decide (b.fitness ≤ a.fitness))
  constructor
  · rw [hperm.length_eq, List.length_replicate]
  · intro s hs
    exact List.eq_of_mem_replicate (hperm.mem_iff.mp hs)

/-- Concrete evaluation: the one-special-class snapshot constructs exactly
that fixed entry. -/
theorem create_envW_eq :
    create_comprehensive_schedule envW [] = ([specialEntry spW], []) := by
  have h0 : create_comprehensive_schedule envW [] =
      enforce_max_classes_per_day envW [specialEntry spW] [] := rfl
  rw [h0]
  exact enforce_singleton envW (specialEntry spW) [] (by decide)

/-- C1: `comprehensive_mutation` leaves every entry with `is_fixed == True`
bit-identical in place (day, times, venue, subject, batch and all other
fields unchanged), and the same holds across the whole genetic loop: at
every position where the constructed schedule holds a fixed entry, the best
schedule returned by a full optimization run holds that same entry. -/
theorem fixed_entries_never_mutated :
    (∀ (env : Env) (mo : Nat → MutEntry) (ind : List ScheduleEntry) (i : Nat)
        (e : ScheduleEntry), ind[i]? = some e → e.is_fixed = true →
        (comprehensive_mutation env mo 0 ind)[i]? = some e) ∧
    (∀ (env : Env) (orc : Oracle) (conflicts0 : List Conflict) (i : Nat)
        (e : ScheduleEntry), 1 ≤ env.population_size →
        (create_comprehensive_schedule env conflicts0).1[i]? = some e →
        e.is_fixed = true →
        (optimize_with_comprehensive_constraints env orc conflicts0).1[i]? = some e) := by
  constructor
  · intro env mo ind i e hie hf
    rw [comprehensive_mutation_getElem?, hie]
    simp [mutateEntry_fixed_id _ _ _ hf]
  · intro env orc conflicts0 i e hps hie hf
    have hpf := optimize_patFix env orc conflicts0 hps
    have hbase : (create_comprehensive_schedule env []).1[i]? = some e := by
      rw [← create_schedule_conflicts_indep env conflicts0]
      exact hie
    exact hpf.2 i e hbase hf

/-- Witness for C1: one fixed entry, mutated with the oracle firing on
every index, and a full optimization run on a one-special-class snapshot. -/
theorem fixed_entries_never_mutated_witness :
    (([specialEntry spW] : List ScheduleEntry)[0]? = some (specialEntry spW) ∧
     (specialEntry spW).is_fixed = true ∧
     (comprehensive_mutation envW (fun _ => ⟨true, 0, 0⟩) 0
        [specialEntry spW])[0]? = some (specialEntry spW)) ∧
    (1 ≤ envW.population_size ∧
     (create_comprehensive_schedule envW []).1[0]? = some (specialEntry spW) ∧
     (optimize_with_comprehensive_constraints envW default []).1[0]? =
       some (specialEntry spW)) :=
  ⟨⟨rfl, rfl,
    fixed_entries_never_mutated.1 envW (fun _ => ⟨true, 0, 0⟩) [specialEntry spW] 0
      (specialEntry spW) rfl rfl⟩,
   ⟨by decide, by rw [create_envW_eq]; rfl,
    fixed_entries_never_mutated.2 envW default [] 0 (specialEntry spW)
      (by decide) (by rw [create_envW_eq]; rfl) rfl⟩⟩

/-- C2: for every snapshot, the number of fixed entries in the best
schedule returned by a full optimization run equals the number of
`SpecialClass` records in the snapshot — construction places one fixed
entry per special class, the daily-cap adjustment never drops one, and
crossover/mutation preserve the positional fixed layout of every
individual. -/
theorem fixed_entry_count_preserved (env : Env) (orc : Oracle)
    (conflicts0 : List Conflict) (hps : 1 ≤ env.population_size) :
    countFixed (optimize_with_comprehensive_constraints env orc conflicts0).1 =
      env.special_classes.length := by
  have hpf := optimize_patFix env orc conflicts0 hps
  rw [patFix_countFixed hpf, create_schedule_countFixed]

/-- Witness for C2 on the one-special-class snapshot. -/
theorem fixed_entry_count_preserved_witness :
    1 ≤ envW.population_size ∧
    countFixed (optimize_with_comprehensive_constraints envW default []).1 =
      envW.special_classes.length :=
  ⟨by decide, fixed_entry_count_preserved envW default [] (by decide)⟩

/-- One best-tracking step never decreases the tracked fitness, and
replaces the tracked individual only on a strict improvement. -/
theorem track_best_ge (pop : List (List ScheduleEntry)) (scores : List ℚ)
    (bi : Option (List ScheduleEntry)) (bf : ℚ) :
    bf ≤ (track_best pop scores bi bf).2 ∧
    ((track_best pop scores bi bf).1 = bi ∨ bf < (track_best pop scores bi bf).2) := by
  unfold track_best
  by_cases hlt : bf < maxD scores
  · rw [if_pos hlt]
    exact ⟨le_of_lt hlt, Or.inr hlt⟩
  · rw [if_neg hlt]
    exact ⟨le_refl bf, Or.inl rfl⟩

/-- The generation loop's final tracked fitness dominates its initial
value. -/
theorem genLoop_best_ge (env : Env) (orc : Oracle) :
    ∀ (fuel g : Nat) (pop : List (List ScheduleEntry))
      (bi : Option (List ScheduleEntry)) (bf : ℚ),
      bf ≤ (genLoop env orc g fuel pop bi bf).2.1 := by
  intro fuel
  induction fuel with
  | zero => intro g pop bi bf; exact le_refl bf
  | succ f ih =>
    intro g pop bi bf
    rw [genLoop]
    have h1 := (track_best_ge pop (pop.map (calculate_comprehensive_fitness env)) bi bf).1
    by_cases hstop : (900 : ℚ) ≤ maxD (pop.map (calculate_comprehensive_fitness env))
    · rw [if_pos hstop]
      exact h1
    · rw [if_neg hstop]
      exact le_trans h1 (ih (g + 1) _ _ _)

/-- C6: within one optimizer run the tracked best fitness is
non-decreasing — each generation's tracking step only raises it, the
tracked best individual is replaced only by a strictly fitter candidate,
and the fitness returned after any number of generations dominates the
starting value. -/
theorem best_fitness_monotone :
    (∀ (pop : List (List ScheduleEntry)) (scores : List ℚ)
        (bi : Option (List ScheduleEntry)) (bf : ℚ),
        bf ≤ (track_best pop scores bi bf).2 ∧
        ((track_best pop scores bi bf).1 = bi ∨
          bf < (track_best pop scores bi bf).2)) ∧
    (∀ (env : Env) (orc : Oracle) (fuel g : Nat)
        (pop : List (List ScheduleEntry)) (bi : Option (List ScheduleEntry))
        (bf : ℚ), bf ≤ (genLoop env orc g fuel pop bi bf).2.1) :=
  ⟨fun pop scores bi bf => track_best_ge pop scores bi bf,
   fun env orc fuel g pop bi bf => genLoop_best_ge env orc fuel g pop bi bf⟩

/-- C7: the solutions returned by the driver are sorted by fitness in
descending order — every earlier solution's fitness dominates every later
one's, so the first solution is the best found. -/
theorem solutions_sorted_descending (env : Env) (orcs : Nat → Oracle)
    (num_solutions : Nat) :
    (generate_multiple_optimized_solutions env orcs num_solutions).Pairwise
      (fun a b => b.fitness ≤ a.fitness) := by
  unfold generate_multiple_optimized_solutions
  have htrans : ∀ a b c : Solution, decide (b.fitness ≤ a.fitness) = true →
      decide (c.fitness ≤ b.fitness) = true →
      decide (c.fitness ≤ a.fitness) = true := by
    intro a b c hab hbc
    rw [decide_eq_true_eq] at *
    exact le_trans hbc hab
  have htot : ∀ a b : Solution,
      (decide (b.fitness ≤ a.fitness) || decide (a.fitness ≤ b.fitness)) = true := by
    intro a b
    rcases le_total b.fitness a.fitness with h | h <;> simp [h]
  have hs := List.sorted_mergeSort htrans htot
    (solutionRuns env orcs 0 num_solutions)
  refine hs.imp ?_
  intro a b h
  rw [decide_eq_true_eq] at h
  exact h

/-- C8: in the output of `enforce_max_classes_per_day`, (i) a batch/day
count exceeds the batch's cap only when every entry of that batch/day is
fixed, (ii) any batch/day over the cap has a `max_classes_exceeded`
conflict recorded, (iii) fixed entries are always kept, and (iv) every
non-fixed entry beyond the cap is dropped with exactly one
`max_classes_exceeded` drop conflict recorded (rescheduling is a
placeholder that never succeeds), so admitted entries plus drop conflicts
account for the whole input. -/
theorem enforce_max_classes_per_day_caps (env : Env)
    (schedule : List ScheduleEntry) (conflicts0 : List Conflict) :
    (∀ b d, countBD (enforce_max_classes_per_day env schedule conflicts0).1 b d ≤
        maxClassesOf env b ∨
      ∀ e ∈ (enforce_max_classes_per_day env schedule conflicts0).1,
        e.batch_id = b → e.day = d → e.is_fixed = true) ∧
    (∀ b d, countBD (enforce_max_classes_per_day env schedule conflicts0).1 b d ≤
        maxClassesOf env b ∨
      ∃ c ∈ (enforce_max_classes_per_day env schedule conflicts0).2,
        c.ctype = "max_classes_exceeded" ∧ c.batch_id = b ∧ c.day = d) ∧
    (∀ x ∈ schedule, x.is_fixed = true →
      x ∈ (enforce_max_classes_per_day env schedule conflicts0).1) ∧
    ((enforce_max_classes_per_day env schedule conflicts0).1.length +
        ((enforce_max_classes_per_day env schedule conflicts0).2.filter
          isDropConflict).length =
      schedule.length + (conflicts0.filter isDropConflict).length) := by
  obtain ⟨h1, h2, h3, h4, _⟩ := enforce_spec env schedule conflicts0
  exact ⟨h1, h2, h3, h4⟩

/-- Witness for C8: a batch capped at one class per day, given one fixed
and two non-fixed Monday entries, keeps the fixed entry plus one non-fixed
entry is dropped — instantiating every conjunct of the theorem. -/
theorem enforce_max_classes_per_day_caps_witness :
    (∀ b d, countBD (enforce_max_classes_per_day env4 [entryA, entryB] []).1 b d ≤
        maxClassesOf env4 b ∨
      ∀ e ∈ (enforce_max_classes_per_day env4 [entryA, entryB] []).1,
        e.batch_id = b → e.day = d → e.is_fixed = true) ∧
    (∀ b d, countBD (enforce_max_classes_per_day env4 [entryA, entryB] []).1 b d ≤
        maxClassesOf env4 b ∨
      ∃ c ∈ (enforce_max_classes_per_day env4 [entryA, entryB] []).2,
        c.ctype = "max_classes_exceeded" ∧ c.batch_id = b ∧ c.day = d) ∧
    (∀ x ∈ ([entryA, entryB] : List ScheduleEntry), x.is_fixed = true →
      x ∈ (enforce_max_classes_per_day env4 [entryA, entryB] []).1) ∧
    ((enforce_max_classes_per_day env4 [entryA, entryB] []).1.length +
        ((enforce_max_classes_per_day env4 [entryA, entryB] []).2.filter
          isDropConflict).length =
      ([entryA, entryB] : List ScheduleEntry).length +
        (([] : List Conflict).filter isDropConflict).length) :=
  enforce_max_classes_per_day_caps env4 [entryA, entryB] []

/-- C9 counterexample: on the zero-subject snapshot the driver silently
runs the search (three early-stopped solutions are returned) and reports
no precondition-style notice of any kind — every returned solution carries
an empty conflict list, and there is no other channel to the caller. -/
theorem empty_semester_no_notice :
    (generate_multiple_optimized_solutions emptyEnv (fun _ => default) 3).length = 3 ∧
    (generate_multiple_optimized_solutions emptyEnv (fun _ => default) 3).all
      (fun s => s.conflicts.isEmpty && s.schedule.isEmpty) = true := by
  obtain ⟨h1, h2⟩ := driver_empty_spec emptyEnv (fun _ => default) 3 rfl (by decide)
  refine ⟨h1, ?_⟩
  rw [List.all_eq_true]
  intro s hs
  rw [h2 s hs]
  rfl

/-- C9 (amended): for a snapshot whose semester has no subjects (hence no
special classes, which join through subjects), the driver does not raise
and emits no precondition notice: it runs the search anyway — each run
early-stops at fitness 1000 — and returns a well-formed list of
`num_solutions` solutions, each with an empty schedule, fitness 1000 and
an empty conflict list. -/
theorem empty_semester_driver_runs (env : Env) (orcs : Nat → Oracle)
    (num_solutions : Nat) (_hsub : env.subjects = [])
    (hsp : env.special_classes = []) (hps : 1 ≤ env.population_size) :
    (generate_multiple_optimized_solutions env orcs num_solutions).length =
      num_solutions ∧
    ∀ s ∈ generate_multiple_optimized_solutions env orcs num_solutions,
      s.schedule = [] ∧ s.fitness = 1000 ∧ s.conflicts = [] := by
  obtain ⟨h1, h2⟩ := driver_empty_spec env orcs num_solutions hsp hps
  refine ⟨h1, fun s hs => ?_⟩
  rw [h2 s hs]
  exact ⟨rfl, rfl, rfl⟩

/-- Witness for the amended C9 at the concrete empty snapshot. -/
theorem empty_semester_driver_runs_witness :
    emptyEnv.subjects = [] ∧ emptyEnv.special_classes = [] ∧
    1 ≤ emptyEnv.population_size ∧
    ((generate_multiple_optimized_solutions emptyEnv (fun _ => default) 5).length = 5 ∧
     ∀ s ∈ generate_multiple_optimized_solutions emptyEnv (fun _ => default) 5,
       s.schedule = [] ∧ s.fitness = 1000 ∧ s.conflicts = []) :=
  ⟨rfl, rfl, by decide,
   empty_semester_driver_runs emptyEnv (fun _ => default) 5 rfl rfl (by decide)⟩

/-- One entry in one of 45 classroom slots sits far below the utilization
band: minimal bonus 5. -/
theorem classroom_util_env4 :
    calculate_classroom_utilization_score env4 [entry70] = 5 := by
  norm_num [calculate_classroom_utilization_score, env4, entry70,
    WORKING_DAYS, TIME_SLOTS, MIN_CLASSROOM_UTILIZATION,
    MAX_CLASSROOM_UTILIZATION]

/-- Same with the 100-seat room (capacity is never read). -/
theorem classroom_util_env4' :
    calculate_classroom_utilization_score env4' [entry70] = 5 := by
  norm_num [calculate_classroom_utilization_score, env4', env4, entry70,
    WORKING_DAYS, TIME_SLOTS, MIN_CLASSROOM_UTILIZATION,
    MAX_CLASSROOM_UTILIZATION]

/-- One one-hour session: no cap excess, zero spread, full balance bonus. -/
theorem balance_env4 :
    calculate_faculty_load_balance_score env4 [entry70] = 20 := by
  norm_num [calculate_faculty_load_balance_score, facultyIds,
    facultyViolations, findFaculty, weeklyHours, facultyDays, dailyHours,
    durationHours, env4, entry70]

/-- Same snapshot up to room capacity. -/
theorem balance_env4' :
    calculate_faculty_load_balance_score env4' [entry70] = 20 := by
  norm_num [calculate_faculty_load_balance_score, facultyIds,
    facultyViolations, findFaculty, weeklyHours, facultyDays, dailyHours,
    durationHours, env4', env4, entry70]

/-- One class on one day is within the cap of 6. -/
theorem maxviol_env4 :
    check_max_classes_per_day_violations env4 [entry70] = 0 := by decide

/-- Same with the 100-seat room. -/
theorem maxviol_env4' :
    check_max_classes_per_day_violations env4' [entry70] = 0 := by decide

/-- C4: the capacity check is a stubbed placeholder — on the schedule
placing the 70-student batch in the 60-seat room it reports zero
`capacity_violations`, and the fitness (2050) is identical to that of the
same schedule with a 100-seat room, instead of one conflict and a
fitness exactly `weight['capacity_violations']` (160) lower. -/
theorem capacity_check_noop :
    check_capacity_violations env4 [entry70] = 0 ∧
    calculate_comprehensive_fitness env4 [entry70] = 2050 ∧
    calculate_comprehensive_fitness env4' [entry70] = 2050 := by
  refine ⟨rfl, ?_, ?_⟩
  · unfold calculate_comprehensive_fitness
    rw [classroom_util_env4, balance_env4, maxviol_env4]
    norm_num [check_room_conflicts, check_faculty_conflicts,
      check_batch_conflicts, check_capacity_violations, check_shift_violations,
      check_faculty_availability_violations, check_special_class_violations,
      check_lab_conflicts, check_lab_duration_violations,
      check_elective_sync_violations, calculate_lab_utilization_score,
      OPTIMIZATION_WEIGHTS]
  · unfold calculate_comprehensive_fitness
    rw [classroom_util_env4', balance_env4', maxviol_env4']
    norm_num [check_room_conflicts, check_faculty_conflicts,
      check_batch_conflicts, check_capacity_violations, check_shift_violations,
      check_faculty_availability_violations, check_special_class_violations,
      check_lab_conflicts, check_lab_duration_violations,
      check_elective_sync_violations, calculate_lab_utilization_score,
      OPTIMIZATION_WEIGHTS]

/-- Two entries in 45 classroom slots: minimal utilization bonus 5. -/
theorem classroom_util_env5 :
    calculate_classroom_utilization_score env5 [entryA, entryB] = 5 := by
  norm_num [calculate_classroom_utilization_score, env5, entryA, entryB,
    WORKING_DAYS, TIME_SLOTS, MIN_CLASSROOM_UTILIZATION,
    MAX_CLASSROOM_UTILIZATION]

/-- Moving the second entry to Tuesday does not change utilization. -/
theorem classroom_util_env5' :
    calculate_classroom_utilization_score env5 [entryA, entryB'] = 5 := by
  norm_num [calculate_classroom_utilization_score, env5, entryA, entryB',
    entryB, WORKING_DAYS, TIME_SLOTS, MIN_CLASSROOM_UTILIZATION,
    MAX_CLASSROOM_UTILIZATION]

/-- Two faculty at one hour each: zero spread, no cap excess. -/
theorem balance_env5 :
    calculate_faculty_load_balance_score env5 [entryA, entryB] = 20 := by
  norm_num [calculate_faculty_load_balance_score, facultyIds,
    facultyViolations, findFaculty, weeklyHours, facultyDays, dailyHours,
    durationHours, env5, entryA, entryB]

/-- Same after moving the second entry to Tuesday. -/
theorem balance_env5' :
    calculate_faculty_load_balance_score env5 [entryA, entryB'] = 20 := by
  norm_num [calculate_faculty_load_balance_score, facultyIds,
    facultyViolations, findFaculty, weeklyHours, facultyDays, dailyHours,
    durationHours, env5, entryA, entryB', entryB]

/-- Two classes on Monday are within the cap of 6. -/
theorem maxviol_env5 :
    check_max_classes_per_day_violations env5 [entryA, entryB] = 0 := by decide

/-- One class on each of two days is within the cap of 6. -/
theorem maxviol_env5' :
    check_max_classes_per_day_violations env5 [entryA, entryB'] = 0 := by decide

/-- C5: the room-conflict check is a stubbed placeholder — on two entries
double-booking classroom 1 on Monday with overlapping times it reports
zero conflicts, and the fitness (2050) is identical to that of the
conflict-free variant with the second entry moved to Tuesday; no
`room_conflict` record referencing the entries is ever produced. -/
theorem room_conflict_check_noop :
    check_room_conflicts env5 [entryA, entryB] = 0 ∧
    calculate_comprehensive_fitness env5 [entryA, entryB] = 2050 ∧
    calculate_comprehensive_fitness env5 [entryA, entryB'] = 2050 := by
  refine ⟨rfl, ?_, ?_⟩
  · unfold calculate_comprehensive_fitness
    rw [classroom_util_env5, balance_env5, maxviol_env5]
    norm_num [check_room_conflicts, check_faculty_conflicts,
      check_batch_conflicts, check_capacity_violations, check_shift_violations,
      check_faculty_availability_violations, check_special_class_violations,
      check_lab_conflicts, check_lab_duration_violations,
      check_elective_sync_violations, calculate_lab_utilization_score,
      OPTIMIZATION_WEIGHTS]
  · unfold calculate_comprehensive_fitness
    rw [classroom_util_env5', balance_env5', maxviol_env5']
    norm_num [check_room_conflicts, check_faculty_conflicts,
      check_batch_conflicts, check_capacity_violations, check_shift_violations,
      check_faculty_availability_violations, check_special_class_violations,
      check_lab_conflicts, check_lab_duration_violations,
      check_elective_sync_violations, calculate_lab_utilization_score,
      OPTIMIZATION_WEIGHTS]

end Timetable

